import Mathlib

/-
  Verification development for the vespa ArrayStore
  (searchlib/src/vespa/searchlib/datastore/array_store.hpp).

  The ArrayStore operations (add / addSmallArray / addLargeArray / get /
  getSmallArray / getLargeArray / remove / CompactionContext::compact /
  addressSpaceUsage) are translated from array_store.hpp.  The underlying
  DataStoreBase / BufferState / EntryRefT machinery (datastore.hpp,
  bufferstate.h, entryref.h) is not part of the shown sources, so those
  parts are modelled from the specification (sections 3, 4.1, 4.2, 4.4):
  each such definition carries a note in its doc comment.
-/

set_option maxHeartbeats 1000000

namespace VespaArrayStore

/-- Modelled from the spec: EntryRefT offset size, `2^OFFSET_BITS`
(entryref.h is not in the shown sources). -/
def offsetSize (ob : Nat) : Nat := 2 ^ ob

/-- Modelled from the spec: EntryRefT buffer-id count, `2^(32-OFFSET_BITS)`. -/
def numBuffers (ob : Nat) : Nat := 2 ^ (32 - ob)

/-- Modelled from the spec: RefCodec encode, packing the offset into the low
`OFFSET_BITS` bits and the buffer id into the high bits. -/
def refEncode (ob off bufId : Nat) : Nat := off + bufId * 2 ^ ob

/-- Modelled from the spec: RefCodec decode of the offset field. -/
def refOffset (ob r : Nat) : Nat := r % 2 ^ ob

/-- Modelled from the spec: RefCodec decode of the buffer-id field. -/
def refBufferId (ob r : Nat) : Nat := r / 2 ^ ob

/-- Modelled from the spec: buffer lifecycle states Free, Active, Hold. -/
inductive BufState where
  | free
  | active
  | hold
deriving DecidableEq, Repr

/-- Contents of one buffer.  A small-class buffer stores the elements of its
arrays packed end-to-end; the large-array buffer stores one heap-owned
descriptor (modelled as the list of payload elements) per record. -/
inductive BufferData (E : Type) where
  | small (elems : List E)
  | large (arrays : List (List E))
deriving DecidableEq

/-- Whether the data is the small-class (flat element) form. -/
def BufferData.isSmall {E : Type} : BufferData E → Bool
  | .small _ => true
  | .large _ => false

/-- Modelled from the spec: one BufferState slot of DataStoreBase, holding the
type id, capacity, lifecycle state, contents and extra-bytes accounting. -/
structure Buffer (E : Type) where
  typeId : Nat
  capacity : Nat
  state : BufState
  data : BufferData E
  extraBytes : Nat
deriving DecidableEq

/-- Flat element storage of a small-class buffer. -/
def Buffer.smallElems {E : Type} (b : Buffer E) : List E :=
  match b.data with
  | .small l => l
  | .large _ => []

/-- Large-array descriptors of a large-class buffer. -/
def Buffer.largeArrays {E : Type} (b : Buffer E) : List (List E) :=
  match b.data with
  | .small _ => []
  | .large l => l

/-- Used element count of a buffer (BufferState::size). -/
def Buffer.size {E : Type} (b : Buffer E) : Nat :=
  match b.data with
  | .small l => l.length
  | .large l => l.length

/-- A never-activated (Free) buffer slot. -/
def freeBuffer (E : Type) : Buffer E :=
  { typeId := 0, capacity := 0, state := BufState.free,
    data := BufferData.large [], extraBytes := 0 }

instance {E : Type} : Inhabited (Buffer E) := ⟨freeBuffer E⟩

/-- Modelled from the spec: one hold-list obligation of DataStoreBase, either a
held element range `(generation, ref, elements, extra_bytes)` or a held
whole buffer. -/
inductive HoldEntry where
  | elem (gen ref numElems extraBytes : Nat)
  | buffer (gen bufId : Nat)
deriving DecidableEq

/-- State of one ArrayStore instantiation together with its underlying data
store.  `offsetBits`, `entrySize` (sizeof of the element type),
`maxSmallArraySize` and `maxClusters` are the instantiation parameters;
`buffers`, `activeBuffers`, `holdList`, `curGen` and `numActiveBuffers` are
the DataStoreBase state modelled from the spec. -/
structure ArrayStore (E : Type) where
  offsetBits : Nat
  entrySize : Nat
  maxSmallArraySize : Nat
  maxClusters : Nat
  buffers : List (Buffer E)
  activeBuffers : List Nat
  holdList : List HoldEntry
  curGen : Nat
  numActiveBuffers : Nat
deriving DecidableEq

/-- Modelled from the spec: cluster size of a buffer type; one array slot for
a small class (its array length), one record for the large class. -/
def clusterSize (typeId : Nat) : Nat := if typeId = 0 then 1 else typeId

/-- ArrayStore::getTypeId, modelled from the spec: the 1-to-1 `type_id = s`
convention enforced by initArrayTypes (array_store.h is not shown). -/
def getTypeId (arraySize : Nat) : Nat := arraySize

/-- ArrayStore::getArraySize, modelled from the spec: inverse of the
`type_id = s` convention. -/
def getArraySize (typeId : Nat) : Nat := typeId

namespace ArrayStore

variable {E : Type}

/-- DataStoreBase::getBufferState, as a total lookup. -/
def bufAt (st : ArrayStore E) (i : Nat) : Buffer E :=
  st.buffers.getD i (freeBuffer E)

/-- DataStoreBase::getActiveBufferId. -/
def activeBufferId (st : ArrayStore E) (t : Nat) : Nat :=
  st.activeBuffers.getD t 0

/-- Replace the buffer at index `i`. -/
def setBuf (st : ArrayStore E) (i : Nat) (b : Buffer E) : ArrayStore E :=
  { st with buffers := st.buffers.set i b }

/-- Decoded buffer id of a ref in this store. -/
def bufIdOf (st : ArrayStore E) (r : Nat) : Nat := refBufferId st.offsetBits r

/-- Decoded offset of a ref in this store. -/
def offOf (st : ArrayStore E) (r : Nat) : Nat := refOffset st.offsetBits r

end ArrayStore

/-- Modelled from the spec: capacity of a freshly allocated buffer of a type,
`cluster size * clamp(max_clusters, 2^OFFSET_BITS)` elements. -/
def freshCapacity (maxClusters ob typeId : Nat) : Nat :=
  clusterSize typeId * min maxClusters (2 ^ ob)

/-- Modelled from the spec: initial contents of a freshly activated buffer.
Buffer 0 reserves one array slot (cluster) so that no valid ref ever
encodes to the all-zero (invalid) value. -/
def reservedData (E : Type) [Inhabited E] (typeId bufId : Nat) : BufferData E :=
  if bufId = 0 then
    if typeId = 0 then BufferData.large [[]]
    else BufferData.small (List.replicate typeId default)
  else
    if typeId = 0 then BufferData.large [] else BufferData.small []

/-- Modelled from the spec: a freshly activated buffer of a type. -/
def freshActiveBuffer (E : Type) [Inhabited E] (maxClusters ob typeId bufId : Nat) :
    Buffer E :=
  { typeId := typeId, capacity := freshCapacity maxClusters ob typeId,
    state := BufState.active, data := reservedData E typeId bufId,
    extraBytes := 0 }

/-- Modelled from the spec: find a Free buffer slot to allocate. -/
def findFreeBuffer {E : Type} : List (Buffer E) → Option Nat
  | [] => none
  | b :: rest =>
      if b.state = BufState.free then some 0
      else (findFreeBuffer rest).map (fun i => i + 1)

namespace ArrayStore

variable {E : Type}

/-- Modelled from the spec: DataStoreBase::holdBuffer, transitioning a buffer
to Hold and enqueueing a whole-buffer hold-list entry at the current
generation. -/
def holdBufferOp (st : ArrayStore E) (i : Nat) : ArrayStore E :=
  { st with
    buffers := st.buffers.set i { st.bufAt i with state := BufState.hold },
    holdList := st.holdList ++ [HoldEntry.buffer st.curGen i] }

/-- Modelled from the spec: promote a Free buffer to Active for a type. -/
def activateBuffer [Inhabited E] (st : ArrayStore E) (typeId bufId : Nat) :
    ArrayStore E :=
  { st with
    buffers := st.buffers.set bufId
      (freshActiveBuffer E st.maxClusters st.offsetBits typeId bufId),
    activeBuffers := st.activeBuffers.set typeId bufId,
    numActiveBuffers := st.numActiveBuffers + 1 }

/-- Modelled from the spec: DataStoreBase::ensureBufferCapacity.  If the
active buffer of the type cannot fit `n` more elements it is transitioned
to Hold and a Free buffer is allocated and promoted to Active; `none`
models the AddressSpaceExhausted failure. -/
def ensureBufferCapacity [Inhabited E] (st : ArrayStore E) (typeId n : Nat) :
    Option (ArrayStore E) :=
  if (st.bufAt (st.activeBufferId typeId)).size + n ≤
      (st.bufAt (st.activeBufferId typeId)).capacity then some st
  else
    match findFreeBuffer st.buffers with
    | none => none
    | some newId =>
        some ((st.holdBufferOp (st.activeBufferId typeId)).activateBuffer
          typeId newId)

end ArrayStore

/-- Append `array.size()` elements to a small-class buffer
(the placement-new loop of ArrayStore::addSmallArray plus
BufferState::pushed_back). -/
def Buffer.pushSmall {E : Type} (b : Buffer E) (a : List E) : Buffer E :=
  { b with data := BufferData.small (b.smallElems ++ a) }

/-- Append one large-array descriptor to the large-class buffer
(the placement-new of ArrayStore::addLargeArray plus
BufferState::pushed_back(1, extraBytes)). -/
def Buffer.pushLarge {E : Type} (b : Buffer E) (a : List E) (extra : Nat) :
    Buffer E :=
  { b with data := BufferData.large (b.largeArrays ++ [a]),
           extraBytes := b.extraBytes + extra }

namespace ArrayStore

variable {E : Type}

/-- ArrayStore::addSmallArray: ensure capacity in the size class of the
array, append the elements to the active buffer and encode the ref with
offset `used_before / array.size()` in array-slot units. -/
def addSmallArray [Inhabited E] (st : ArrayStore E) (a : List E) :
    Option (Nat × ArrayStore E) :=
  match st.ensureBufferCapacity (getTypeId a.length) a.length with
  | none => none
  | some st1 =>
      let bufId := st1.activeBufferId (getTypeId a.length)
      let buf := st1.bufAt bufId
      some (refEncode st1.offsetBits (buf.size / a.length) bufId,
            st1.setBuf bufId (buf.pushSmall a))

/-- ArrayStore::addLargeArray: ensure capacity for one record in the large
class, construct the descriptor, account `sizeof(EntryT) * array.size()`
extra bytes and encode the ref with offset `used_before` in record units. -/
def addLargeArray [Inhabited E] (st : ArrayStore E) (a : List E) :
    Option (Nat × ArrayStore E) :=
  match st.ensureBufferCapacity 0 1 with
  | none => none
  | some st1 =>
      let bufId := st1.activeBufferId 0
      let buf := st1.bufAt bufId
      some (refEncode st1.offsetBits buf.size bufId,
            st1.setBuf bufId (buf.pushLarge a (st1.entrySize * a.length)))

/-- ArrayStore::add: the empty array yields the invalid (all-zero) ref and
stores nothing; otherwise dispatch on `array.size() <= maxSmallArraySize`. -/
def add [Inhabited E] (st : ArrayStore E) (a : List E) :
    Option (Nat × ArrayStore E) :=
  if a.length = 0 then some (0, st)
  else if a.length ≤ st.maxSmallArraySize then st.addSmallArray a
  else st.addLargeArray a

/-- ArrayStore::get / getSmallArray / getLargeArray: the invalid ref yields
the empty view; otherwise decode and dispatch on the buffer's type id. -/
def get (st : ArrayStore E) (r : Nat) : List E :=
  if r = 0 then []
  else
    let buf := st.bufAt (st.bufIdOf r)
    if buf.typeId ≠ 0 then
      let arraySize := getArraySize buf.typeId
      (buf.smallElems.drop (st.offOf r * arraySize)).take arraySize
    else
      buf.largeArrays.getD (st.offOf r) []

/-- The hold-list entry enqueued by ArrayStore::remove for a valid ref:
the array size for a small-class ref, or one record plus
`sizeof(EntryT) * get(ref).size()` extra bytes for a large-class ref. -/
def removeHoldEntry (st : ArrayStore E) (r : Nat) : HoldEntry :=
  if (st.bufAt (st.bufIdOf r)).typeId ≠ 0 then
    HoldEntry.elem st.curGen r (getArraySize (st.bufAt (st.bufIdOf r)).typeId) 0
  else
    HoldEntry.elem st.curGen r 1 (st.entrySize * (st.get r).length)

/-- ArrayStore::remove: a no-op on the invalid ref, otherwise enqueue one
hold-list entry (DataStoreBase::holdElem, modelled from the spec as an
append stamped with the current generation). -/
def remove (st : ArrayStore E) (r : Nat) : ArrayStore E :=
  if r = 0 then st
  else { st with holdList := st.holdList ++ [st.removeHoldEntry r] }

end ArrayStore

/-- CompactionContext::compact: for each ref in the slice, a valid ref whose
buffer id equals the buffer being compacted is replaced by
`add(get(ref))`; every other ref is left unchanged.  `none` models an
AddressSpaceExhausted failure of the inner add. -/
def compactRefs {E : Type} [Inhabited E] (target : Nat) :
    ArrayStore E → List Nat → Option (List Nat × ArrayStore E)
  | st, [] => some ([], st)
  | st, r :: rest =>
      if r ≠ 0 ∧ st.bufIdOf r = target then
        match st.add (st.get r) with
        | none => none
        | some (newRef, st1) =>
            match compactRefs target st1 rest with
            | none => none
            | some (rest', st2) => some (newRef :: rest', st2)
      else
        match compactRefs target st rest with
        | none => none
        | some (rest', st2) => some (r :: rest', st2)

/-- Modelled from the spec: count of buffers not in the Free state. -/
def countNonFree {E : Type} (bufs : List (Buffer E)) : Nat :=
  bufs.countP (fun b => decide (b.state ≠ BufState.free))

namespace ArrayStore

variable {E : Type}

/-- DataStoreBase::getNumActiveBuffers, modelled from the spec as the running
count of buffers ever promoted out of the Free state. -/
def getNumActiveBuffers (st : ArrayStore E) : Nat := st.numActiveBuffers

/-- ArrayStore::addressSpaceUsage: `(used, total)` where `used` is the
data store's active-buffer count and `total` is `RefT::numBuffers()`. -/
def addressSpaceUsage (st : ArrayStore E) : Nat × Nat :=
  (st.getNumActiveBuffers, numBuffers st.offsetBits)

end ArrayStore

/-- Instantiation parameters of an ArrayStore. -/
structure Params where
  offsetBits : Nat
  entrySize : Nat
  maxSmallArraySize : Nat
  maxClusters : Nat
deriving DecidableEq

/-- Well-formedness of the instantiation parameters: a nontrivial ref
layout and at least one buffer per registered type. -/
def Params.ok (p : Params) : Prop :=
  1 ≤ p.offsetBits ∧ p.offsetBits ≤ 31 ∧ 1 ≤ p.maxClusters ∧
    p.maxSmallArraySize + 1 ≤ numBuffers p.offsetBits

/-- Modelled from the spec: the store right after the ArrayStore constructor
(initArrayTypes followed by initActiveBuffers): type ids are assigned in
registration order (0 for the large class, then `s` for each small size
`s`), and one buffer per type is promoted to Active, so type `t` is
bound to buffer `t`. -/
def initStore (E : Type) [Inhabited E] (p : Params) : ArrayStore E :=
  { offsetBits := p.offsetBits, entrySize := p.entrySize,
    maxSmallArraySize := p.maxSmallArraySize, maxClusters := p.maxClusters,
    buffers := (List.range (numBuffers p.offsetBits)).map
      (fun i => if i ≤ p.maxSmallArraySize then
                  freshActiveBuffer E p.maxClusters p.offsetBits i i
                else freeBuffer E),
    activeBuffers := List.range (p.maxSmallArraySize + 1),
    holdList := [], curGen := 0,
    numActiveBuffers := p.maxSmallArraySize + 1 }

namespace ArrayStore

variable {E : Type}

/-- A ref that designates an initialised slot of the store: it is valid, its
buffer id is in range, and its offset lies below the used region of the
designated buffer (in array-slot units for a small class, record units
for the large class). -/
def refLive (st : ArrayStore E) (r : Nat) : Prop :=
  r ≠ 0 ∧ st.bufIdOf r < st.buffers.length ∧
    ((st.bufAt (st.bufIdOf r)).typeId ≠ 0 →
      (st.offOf r + 1) * (st.bufAt (st.bufIdOf r)).typeId ≤
        (st.bufAt (st.bufIdOf r)).smallElems.length) ∧
    ((st.bufAt (st.bufIdOf r)).typeId = 0 →
      st.offOf r < (st.bufAt (st.bufIdOf r)).largeArrays.length)

end ArrayStore

/-- Per-buffer well-formedness: the type id is a registered one, the used
count fits the capacity, the capacity respects the offset field width,
small-class buffers hold flat data whose length is a multiple of the
array size, large-class buffers hold descriptor data whose non-reserved
descriptors are non-empty, and Free buffers are empty. -/
def bufferWF {E : Type} (ob maxSmall i : Nat) (b : Buffer E) : Prop :=
  b.typeId ≤ maxSmall ∧
  b.size ≤ b.capacity ∧
  b.capacity ≤ clusterSize b.typeId * 2 ^ ob ∧
  (b.typeId ≠ 0 → b.data.isSmall = true ∧ b.size % b.typeId = 0) ∧
  (b.typeId = 0 → b.data.isSmall = false) ∧
  (b.state = BufState.free → b.typeId = 0 ∧ b.size = 0 ∧ b.capacity = 0) ∧
  (b.typeId = 0 → ∀ j, j < b.largeArrays.length → (j ≠ 0 ∨ i ≠ 0) →
    b.largeArrays.getD j [] ≠ [])

/-- Store well-formedness: the invariants of every reachable store state. -/
def WF {E : Type} (st : ArrayStore E) : Prop :=
  1 ≤ st.offsetBits ∧ st.offsetBits ≤ 31 ∧ 1 ≤ st.maxClusters ∧
  st.buffers.length = numBuffers st.offsetBits ∧
  st.activeBuffers.length = st.maxSmallArraySize + 1 ∧
  (∀ i, i < st.buffers.length →
    bufferWF st.offsetBits st.maxSmallArraySize i (st.bufAt i)) ∧
  (∀ t, t ≤ st.maxSmallArraySize →
    st.activeBufferId t < st.buffers.length ∧
    (st.bufAt (st.activeBufferId t)).typeId = t ∧
    (st.bufAt (st.activeBufferId t)).state = BufState.active) ∧
  (st.bufAt 0).typeId = 0 ∧ (st.bufAt 0).state ≠ BufState.free ∧
  0 < (st.bufAt 0).size

instance Params.instDecidableOk (p : Params) : Decidable p.ok := by
  unfold Params.ok
  exact inferInstance

instance instDecidableBufferWF {E : Type} [DecidableEq E] (ob maxSmall i : Nat)
    (b : Buffer E) : Decidable (bufferWF ob maxSmall i b) := by
  unfold bufferWF
  exact inferInstance

instance instDecidableWF {E : Type} [DecidableEq E] (st : ArrayStore E) :
    Decidable (WF st) := by
  unfold WF
  exact inferInstance

instance ArrayStore.instDecidableRefLive {E : Type} (st : ArrayStore E) (r : Nat) :
    Decidable (st.refLive r) := by
  unfold ArrayStore.refLive
  exact inferInstance

/-- One writer step of the store: a successful add, a remove, or one
compaction round (CompactionContext::compact over a ref slice followed by
the destructor's holdBuffer of the compacted buffer; the eligibility of
the compacted buffer models startCompactWorstBuffer, which never selects
a Free buffer or a current append target). -/
inductive Step {E : Type} [Inhabited E] : ArrayStore E → ArrayStore E → Prop where
  | add (st : ArrayStore E) (a : List E) (r : Nat) (st' : ArrayStore E)
      (h : st.add a = some (r, st')) : Step st st'
  | remove (st : ArrayStore E) (r : Nat) : Step st (st.remove r)
  | compact (st : ArrayStore E) (target : Nat) (refs refs' : List Nat)
      (st' : ArrayStore E)
      (hfree : (st.bufAt target).state ≠ BufState.free)
      (hact : ∀ t, t ≤ st.maxSmallArraySize → st.activeBufferId t ≠ target)
      (h : compactRefs target st refs = some (refs', st')) :
      Step st (st'.holdBufferOp target)

/-- Any number of writer steps with no intervening transferHoldLists or
trimHoldLists call. -/
def Steps {E : Type} [Inhabited E] : ArrayStore E → ArrayStore E → Prop :=
  Relation.ReflTransGen Step

/-- The store states reachable from a fresh store by writer steps. -/
def Reachable (E : Type) [Inhabited E] (p : Params) (st : ArrayStore E) : Prop :=
  Steps (initStore E p) st

/-!  List and arithmetic helper lemmas. -/

theorem getD_set_self {α : Type} {l : List α} {i : Nat} (a d : α)
    (h : i < l.length) : (l.set i a).getD i d = a := by
  simp [List.getD_eq_getElem?_getD, List.getElem?_set_self h]

theorem getD_set_ne {α : Type} {l : List α} {i j : Nat} (a d : α)
    (h : i ≠ j) : (l.set i a).getD j d = l.getD j d := by
  simp [List.getD_eq_getElem?_getD, List.getElem?_set_ne h]

theorem getD_append_left {α : Type} {l l2 : List α} {n : Nat} (d : α)
    (h : n < l.length) : (l ++ l2).getD n d = l.getD n d := by
  simp [List.getD_eq_getElem?_getD, List.getElem?_append, h]

theorem getD_concat_length {α : Type} (l : List α) (a d : α) :
    (l ++ [a]).getD l.length d = a := by
  simp [List.getD_eq_getElem?_getD, List.getElem?_concat_length]

theorem take_drop_append {α : Type} (l xs : List α) (n t : Nat)
    (h : n + t ≤ l.length) :
    ((l ++ xs).drop n).take t = (l.drop n).take t := by
  rw [List.drop_append_of_le_length (by omega)]
  rw [List.take_append_of_le_length (by simp [List.length_drop]; omega)]

theorem countP_set_same {α : Type} (p : α → Bool) :
    ∀ (l : List α) (i : Nat) (b d : α), i < l.length →
      p (l.getD i d) = p b → (l.set i b).countP p = l.countP p
  | [], i, b, d, h, _ => by simp at h
  | x :: tl, 0, b, d, _, hp => by
      rw [List.getD_cons_zero] at hp
      simp [List.countP_cons, hp]
  | x :: tl, i + 1, b, d, h, hp => by
      rw [List.getD_cons_succ] at hp
      simp only [List.set_cons_succ, List.countP_cons]
      rw [countP_set_same p tl i b d (by simpa using h) hp]

theorem countP_set_incr {α : Type} (p : α → Bool) :
    ∀ (l : List α) (i : Nat) (b d : α), i < l.length →
      p (l.getD i d) = false → p b = true →
      (l.set i b).countP p = l.countP p + 1
  | [], i, b, d, h, _, _ => by simp at h
  | x :: tl, 0, b, d, _, hp, hb => by
      rw [List.getD_cons_zero] at hp
      simp [List.countP_cons, hp, hb]
  | x :: tl, i + 1, b, d, h, hp, hb => by
      rw [List.getD_cons_succ] at hp
      simp only [List.set_cons_succ, List.countP_cons]
      rw [countP_set_incr p tl i b d (by simpa using h) hp hb]
      omega

/-!  RefCodec lemmas. -/

theorem refBufferId_encode {ob off bufId : Nat} (h : off < 2 ^ ob) :
    refBufferId ob (refEncode ob off bufId) = bufId := by
  unfold refBufferId refEncode
  rw [Nat.add_mul_div_right _ _ (Nat.pos_pow_of_pos ob (by omega)),
      Nat.div_eq_of_lt h]
  omega

theorem refOffset_encode {ob off bufId : Nat} (h : off < 2 ^ ob) :
    refOffset ob (refEncode ob off bufId) = off := by
  unfold refOffset refEncode
  rw [Nat.add_mul_mod_self_right, Nat.mod_eq_of_lt h]

theorem refEncode_ne_zero_of_bufId {ob off bufId : Nat} (h : bufId ≠ 0) :
    refEncode ob off bufId ≠ 0 := by
  unfold refEncode
  have : 0 < 2 ^ ob := Nat.pos_pow_of_pos ob (by omega)
  have : 0 < bufId * 2 ^ ob := Nat.mul_pos (Nat.pos_of_ne_zero h) this
  omega

theorem refEncode_ne_zero_of_off {ob off bufId : Nat} (h : off ≠ 0) :
    refEncode ob off bufId ≠ 0 := by
  unfold refEncode
  omega

/-!  Projections out of `WF` and `bufferWF`. -/

section Projections

variable {E : Type} {st : ArrayStore E}

theorem wf_obits (h : WF st) : 1 ≤ st.offsetBits := h.1

theorem wf_obits_le (h : WF st) : st.offsetBits ≤ 31 := h.2.1

theorem wf_mc (h : WF st) : 1 ≤ st.maxClusters := h.2.2.1

theorem wf_blen (h : WF st) : st.buffers.length = numBuffers st.offsetBits :=
  h.2.2.2.1

theorem wf_alen (h : WF st) :
    st.activeBuffers.length = st.maxSmallArraySize + 1 := h.2.2.2.2.1

theorem wf_buffer (h : WF st) :
    ∀ i, i < st.buffers.length →
      bufferWF st.offsetBits st.maxSmallArraySize i (st.bufAt i) :=
  h.2.2.2.2.2.1

theorem wf_active (h : WF st) :
    ∀ t, t ≤ st.maxSmallArraySize →
      st.activeBufferId t < st.buffers.length ∧
      (st.bufAt (st.activeBufferId t)).typeId = t ∧
      (st.bufAt (st.activeBufferId t)).state = BufState.active :=
  h.2.2.2.2.2.2.1

theorem wf_buf0 (h : WF st) :
    (st.bufAt 0).typeId = 0 ∧ (st.bufAt 0).state ≠ BufState.free ∧
      0 < (st.bufAt 0).size :=
  h.2.2.2.2.2.2.2

end Projections

section BufferWFProjections

variable {E : Type} {ob maxSmall i : Nat} {b : Buffer E}

theorem bw_typeId_le (h : bufferWF ob maxSmall i b) : b.typeId ≤ maxSmall := h.1

theorem bw_size_le (h : bufferWF ob maxSmall i b) : b.size ≤ b.capacity := h.2.1

theorem bw_cap_le (h : bufferWF ob maxSmall i b) :
    b.capacity ≤ clusterSize b.typeId * 2 ^ ob := h.2.2.1

theorem bw_small (h : bufferWF ob maxSmall i b) :
    b.typeId ≠ 0 → b.data.isSmall = true ∧ b.size % b.typeId = 0 := h.2.2.2.1

theorem bw_large (h : bufferWF ob maxSmall i b) :
    b.typeId = 0 → b.data.isSmall = false := h.2.2.2.2.1

theorem bw_free (h : bufferWF ob maxSmall i b) :
    b.state = BufState.free → b.typeId = 0 ∧ b.size = 0 ∧ b.capacity = 0 :=
  h.2.2.2.2.2.1

theorem bw_nonempty (h : bufferWF ob maxSmall i b) :
    b.typeId = 0 → ∀ j, j < b.largeArrays.length → (j ≠ 0 ∨ i ≠ 0) →
      b.largeArrays.getD j [] ≠ [] := h.2.2.2.2.2.2

end BufferWFProjections

/-!  Basic facts about buffer data forms. -/

theorem data_small_of_isSmall {E : Type} {b : Buffer E}
    (h : b.data.isSmall = true) : b.data = BufferData.small b.smallElems := by
  cases hd : b.data with
  | small l => simp [Buffer.smallElems, hd]
  | large l => rw [hd] at h; simp [BufferData.isSmall] at h

theorem data_large_of_not_isSmall {E : Type} {b : Buffer E}
    (h : b.data.isSmall = false) : b.data = BufferData.large b.largeArrays := by
  cases hd : b.data with
  | small l => rw [hd] at h; simp [BufferData.isSmall] at h
  | large l => simp [Buffer.largeArrays, hd]

theorem size_small {E : Type} {b : Buffer E} (h : b.data.isSmall = true) :
    b.size = b.smallElems.length := by
  cases hd : b.data with
  | small l => simp [Buffer.size, Buffer.smallElems, hd]
  | large l => rw [hd] at h; simp [BufferData.isSmall] at h

theorem size_large {E : Type} {b : Buffer E} (h : b.data.isSmall = false) :
    b.size = b.largeArrays.length := by
  cases hd : b.data with
  | small l => rw [hd] at h; simp [BufferData.isSmall] at h
  | large l => simp [Buffer.size, Buffer.largeArrays, hd]

theorem pushSmall_typeId {E : Type} (b : Buffer E) (a : List E) :
    (b.pushSmall a).typeId = b.typeId := rfl

theorem pushSmall_state {E : Type} (b : Buffer E) (a : List E) :
    (b.pushSmall a).state = b.state := rfl

theorem pushSmall_smallElems {E : Type} (b : Buffer E) (a : List E) :
    (b.pushSmall a).smallElems = b.smallElems ++ a := rfl

theorem pushSmall_size {E : Type} (b : Buffer E) (a : List E) :
    (b.pushSmall a).size = b.smallElems.length + a.length := by
  simp [Buffer.pushSmall, Buffer.size]

theorem pushLarge_typeId {E : Type} (b : Buffer E) (a : List E) (x : Nat) :
    (b.pushLarge a x).typeId = b.typeId := rfl

theorem pushLarge_state {E : Type} (b : Buffer E) (a : List E) (x : Nat) :
    (b.pushLarge a x).state = b.state := rfl

theorem pushLarge_largeArrays {E : Type} (b : Buffer E) (a : List E) (x : Nat) :
    (b.pushLarge a x).largeArrays = b.largeArrays ++ [a] := rfl

theorem pushLarge_size {E : Type} (b : Buffer E) (a : List E) (x : Nat) :
    (b.pushLarge a x).size = b.largeArrays.length + 1 := by
  simp [Buffer.pushLarge, Buffer.size]

/-!  Congruence lemmas: `get` and `refLive` only look at the offset layout,
the buffer list length, and the type id and data of the designated buffer. -/

theorem get_congr_parts {E : Type} {st st' : ArrayStore E} {r : Nat}
    (hob : st'.offsetBits = st.offsetBits)
    (ht : (st'.bufAt (st.bufIdOf r)).typeId = (st.bufAt (st.bufIdOf r)).typeId)
    (hd : (st'.bufAt (st.bufIdOf r)).data = (st.bufAt (st.bufIdOf r)).data) :
    st'.get r = st.get r := by
  have h1 : st'.bufIdOf r = st.bufIdOf r := by
    unfold ArrayStore.bufIdOf; rw [hob]
  have h2 : st'.offOf r = st.offOf r := by
    unfold ArrayStore.offOf; rw [hob]
  have hse : (st'.bufAt (st.bufIdOf r)).smallElems =
      (st.bufAt (st.bufIdOf r)).smallElems := by
    unfold Buffer.smallElems; rw [hd]
  have hla : (st'.bufAt (st.bufIdOf r)).largeArrays =
      (st.bufAt (st.bufIdOf r)).largeArrays := by
    unfold Buffer.largeArrays; rw [hd]
  unfold ArrayStore.get
  rw [h1, h2]
  simp only [ht, hse, hla]

theorem refLive_congr_parts {E : Type} {st st' : ArrayStore E} {r : Nat}
    (hob : st'.offsetBits = st.offsetBits)
    (hlen : st'.buffers.length = st.buffers.length)
    (ht : (st'.bufAt (st.bufIdOf r)).typeId = (st.bufAt (st.bufIdOf r)).typeId)
    (hd : (st'.bufAt (st.bufIdOf r)).data = (st.bufAt (st.bufIdOf r)).data)
    (h : st.refLive r) : st'.refLive r := by
  have h1 : st'.bufIdOf r = st.bufIdOf r := by
    unfold ArrayStore.bufIdOf; rw [hob]
  have h2 : st'.offOf r = st.offOf r := by
    unfold ArrayStore.offOf; rw [hob]
  have hse : (st'.bufAt (st.bufIdOf r)).smallElems =
      (st.bufAt (st.bufIdOf r)).smallElems := by
    unfold Buffer.smallElems; rw [hd]
  have hla : (st'.bufAt (st.bufIdOf r)).largeArrays =
      (st.bufAt (st.bufIdOf r)).largeArrays := by
    unfold Buffer.largeArrays; rw [hd]
  unfold ArrayStore.refLive at h ⊢
  rw [h1, h2, hlen]
  simp only [ht, hse, hla]
  exact h

/-!  Facts preserved by every writer step. -/

theorem bufAt_out {E : Type} (st : ArrayStore E) {i : Nat}
    (h : st.buffers.length ≤ i) : st.bufAt i = freeBuffer E := by
  unfold ArrayStore.bufAt
  rw [List.getD_eq_getElem?_getD, List.getElem?_eq_none h]
  rfl

/-- Relation between a store state and a later one that every writer step
establishes: the instantiation parameters and buffer count are stable,
live refs stay live and read the same values, non-Free buffers stay
non-Free, the active-buffer counter tracks the non-Free count, and any
new append target was a Free buffer before. -/
structure Preserves {E : Type} (st st' : ArrayStore E) : Prop where
  obits : st'.offsetBits = st.offsetBits
  esize : st'.entrySize = st.entrySize
  msmall : st'.maxSmallArraySize = st.maxSmallArraySize
  mclusters : st'.maxClusters = st.maxClusters
  blen : st'.buffers.length = st.buffers.length
  live : ∀ r, st.refLive r → st'.refLive r ∧ st'.get r = st.get r
  nonfree : ∀ i, i < st.buffers.length →
    (st.bufAt i).state ≠ BufState.free → (st'.bufAt i).state ≠ BufState.free
  countA : countNonFree st'.buffers + st.numActiveBuffers =
    countNonFree st.buffers + st'.numActiveBuffers
  actives : ∀ t, t ≤ st.maxSmallArraySize →
    st'.activeBufferId t = st.activeBufferId t ∨
      (st.bufAt (st'.activeBufferId t)).state = BufState.free

theorem preserves_refl {E : Type} (st : ArrayStore E) : Preserves st st :=
  ⟨rfl, rfl, rfl, rfl, rfl, fun _ h => ⟨h, rfl⟩, fun _ _ h => h, rfl,
   fun _ _ => Or.inl rfl⟩

theorem free_backward {E : Type} {st st' : ArrayStore E}
    (h : Preserves st st') (i : Nat)
    (hf : (st'.bufAt i).state = BufState.free) :
    (st.bufAt i).state = BufState.free := by
  by_cases hi : i < st.buffers.length
  · by_contra hnf
    exact (h.nonfree i hi hnf) hf
  · rw [bufAt_out st (by omega)]
    rfl

theorem preserves_trans {E : Type} {st1 st2 st3 : ArrayStore E}
    (h12 : Preserves st1 st2) (h23 : Preserves st2 st3) : Preserves st1 st3 where
  obits := h23.obits.trans h12.obits
  esize := h23.esize.trans h12.esize
  msmall := h23.msmall.trans h12.msmall
  mclusters := h23.mclusters.trans h12.mclusters
  blen := h23.blen.trans h12.blen
  live := fun r h => by
    obtain ⟨l2, g2⟩ := h12.live r h
    obtain ⟨l3, g3⟩ := h23.live r l2
    exact ⟨l3, g3.trans g2⟩
  nonfree := fun i hi h => by
    refine h23.nonfree i ?_ (h12.nonfree i hi h)
    rw [h12.blen]; exact hi
  countA := by
    have a := h12.countA
    have b := h23.countA
    omega
  actives := fun t ht => by
    rcases h23.actives t (by rw [h12.msmall]; exact ht) with h3 | h3
    · rw [h3]
      exact h12.actives t ht
    · exact Or.inr (free_backward h12 _ h3)

/-!  The freshly constructed store. -/

theorem initStore_bufAt {E : Type} [Inhabited E] (p : Params) {i : Nat}
    (hi : i < numBuffers p.offsetBits) :
    (initStore E p).bufAt i =
      if i ≤ p.maxSmallArraySize then
        freshActiveBuffer E p.maxClusters p.offsetBits i i
      else freeBuffer E := by
  unfold initStore ArrayStore.bufAt
  simp [List.getD_eq_getElem?_getD, List.getElem?_map, List.getElem?_range hi]

theorem initStore_activeBufferId {E : Type} [Inhabited E] (p : Params) {t : Nat}
    (ht : t ≤ p.maxSmallArraySize) :
    (initStore E p).activeBufferId t = t := by
  unfold initStore ArrayStore.activeBufferId
  simp [List.getD_eq_getElem?_getD, List.getElem?_range (by omega : t < p.maxSmallArraySize + 1)]

theorem freshActiveBuffer_size_of_ne {E : Type} [Inhabited E]
    {mc ob t bufId : Nat} (h : bufId ≠ 0) :
    (freshActiveBuffer E mc ob t bufId).size = 0 := by
  unfold freshActiveBuffer reservedData Buffer.size
  by_cases h0 : t = 0 <;> simp [h, h0]

theorem freshActiveBuffer_bufferWF {E : Type} [Inhabited E]
    {mc ob maxSmall t i : Nat} (hmc : 1 ≤ mc) (ht : t ≤ maxSmall) :
    bufferWF ob maxSmall i (freshActiveBuffer E mc ob t i) := by
  have hmin1 : 1 ≤ min mc (2 ^ ob) := le_min hmc Nat.one_le_two_pow
  have hminle : min mc (2 ^ ob) ≤ 2 ^ ob := min_le_right _ _
  have hmul : ∀ k : Nat, k * min mc (2 ^ ob) ≤ k * 2 ^ ob :=
    fun k => Nat.mul_le_mul_left k hminle
  have hmul1 : ∀ k : Nat, k ≤ k * min mc (2 ^ ob) := by
    intro k
    calc k = k * 1 := by omega
    _ ≤ k * min mc (2 ^ ob) := Nat.mul_le_mul_left k hmin1
  unfold bufferWF freshActiveBuffer freshCapacity reservedData clusterSize
  by_cases hi : i = 0 <;> by_cases h0 : t = 0 <;>
    simp [hi, h0, Buffer.size, Buffer.smallElems, Buffer.largeArrays,
          BufferData.isSmall, hminle, ht]
  · exact ⟨hmc, Nat.one_le_two_pow⟩
  · exact ⟨hmul1 t, hmul t⟩
  · exact hmul t

theorem wf_init {E : Type} [Inhabited E] (p : Params) (hp : p.ok) :
    WF (initStore E p) := by
  obtain ⟨h1, h2, h3, h4⟩ := hp
  have hblen : (initStore E p).buffers.length = numBuffers p.offsetBits := by
    unfold initStore
    simp [List.length_map, List.length_range]
  refine ⟨h1, h2, h3, hblen, ?_, ?_, ?_, ?_, ?_, ?_⟩
  · unfold initStore
    simp [List.length_range]
  · intro i hi
    rw [hblen] at hi
    rw [initStore_bufAt p hi]
    by_cases him : i ≤ p.maxSmallArraySize
    · simp only [him, if_true]
      exact freshActiveBuffer_bufferWF h3 him
    · simp only [him, if_false]
      unfold bufferWF freeBuffer clusterSize
      simp [Buffer.size, Buffer.largeArrays, BufferData.isSmall]
  · intro t ht
    have hms : (initStore E p).maxSmallArraySize = p.maxSmallArraySize := rfl
    rw [hms] at ht
    have htlt : t < numBuffers p.offsetBits := by omega
    rw [hblen, initStore_activeBufferId p ht, initStore_bufAt p htlt,
        if_pos ht]
    refine ⟨by omega, rfl, rfl⟩
  · rw [initStore_bufAt p (by omega), if_pos (by omega)]
    rfl
  · rw [initStore_bufAt p (by omega), if_pos (by omega)]
    simp [freshActiveBuffer, BufState.active]
  · rw [initStore_bufAt p (by omega), if_pos (by omega)]
    simp [freshActiveBuffer, reservedData, Buffer.size]

theorem countP_range_le (m : Nat) :
    ∀ n, m + 1 ≤ n →
      (List.range n).countP (fun i => decide (i ≤ m)) = m + 1 := by
  intro n
  induction n with
  | zero => intro h; omega
  | succ k ih =>
      intro h
      rw [List.range_succ, List.countP_append]
      by_cases hk : m + 1 ≤ k
      · rw [ih hk]
        simp [List.countP_cons, List.countP_nil]
        omega
      · have hk2 : k = m := by omega
        subst hk2
        rw [List.countP_eq_length.mpr ?_]
        · simp [List.length_range, List.countP_cons, List.countP_nil]
        · intro a ha
          have := List.mem_range.mp ha
          simp
          omega

theorem count_init {E : Type} [Inhabited E] (p : Params) (hp : p.ok) :
    countNonFree (initStore E p).buffers = (initStore E p).numActiveBuffers := by
  obtain ⟨h1, h2, h3, h4⟩ := hp
  unfold initStore countNonFree
  simp only [List.countP_map]
  rw [List.countP_congr (q := fun i => decide (i ≤ p.maxSmallArraySize)) ?_]
  · exact countP_range_le _ _ h4
  · intro i _
    by_cases him : i ≤ p.maxSmallArraySize <;>
      simp [Function.comp, him, freshActiveBuffer, freeBuffer]

/-!  Allocation of a Free buffer. -/

theorem findFreeBuffer_spec {E : Type} :
    ∀ (l : List (Buffer E)) (i : Nat), findFreeBuffer l = some i →
      i < l.length ∧ (l.getD i (freeBuffer E)).state = BufState.free
  | [], i, h => by simp [findFreeBuffer] at h
  | b :: rest, i, h => by
      unfold findFreeBuffer at h
      by_cases hb : b.state = BufState.free
      · rw [if_pos hb] at h
        cases h
        exact ⟨by simp, by rw [List.getD_cons_zero]; exact hb⟩
      · rw [if_neg hb] at h
        obtain ⟨j, hj, hji⟩ := Option.map_eq_some'.mp h
        obtain ⟨hlt, hst⟩ := findFreeBuffer_spec rest j hj
        subst hji
        exact ⟨by simp; omega, by rw [List.getD_cons_succ]; exact hst⟩

/-!  Pointwise effect of the buffer-updating operations. -/

section UpdateLemmas

variable {E : Type} (st : ArrayStore E)

theorem setBuf_bufAt_self {i : Nat} (b : Buffer E) (h : i < st.buffers.length) :
    (st.setBuf i b).bufAt i = b := by
  unfold ArrayStore.setBuf ArrayStore.bufAt
  exact getD_set_self b _ h

theorem setBuf_bufAt_ne {i j : Nat} (b : Buffer E) (h : i ≠ j) :
    (st.setBuf i b).bufAt j = st.bufAt j := by
  unfold ArrayStore.setBuf ArrayStore.bufAt
  exact getD_set_ne b _ h

theorem setBuf_blen (i : Nat) (b : Buffer E) :
    (st.setBuf i b).buffers.length = st.buffers.length := by
  unfold ArrayStore.setBuf
  exact List.length_set _ _ _

theorem holdBufferOp_bufAt_self {i : Nat} (h : i < st.buffers.length) :
    (st.holdBufferOp i).bufAt i = { st.bufAt i with state := BufState.hold } := by
  unfold ArrayStore.holdBufferOp ArrayStore.bufAt
  exact getD_set_self _ _ h

theorem holdBufferOp_bufAt_ne {i j : Nat} (h : i ≠ j) :
    (st.holdBufferOp i).bufAt j = st.bufAt j := by
  unfold ArrayStore.holdBufferOp ArrayStore.bufAt
  exact getD_set_ne _ _ h

theorem holdBufferOp_blen (i : Nat) :
    (st.holdBufferOp i).buffers.length = st.buffers.length := by
  unfold ArrayStore.holdBufferOp
  exact List.length_set _ _ _

theorem activateBuffer_bufAt_self [Inhabited E] {bufId : Nat} (t : Nat)
    (h : bufId < st.buffers.length) :
    (st.activateBuffer t bufId).bufAt bufId =
      freshActiveBuffer E st.maxClusters st.offsetBits t bufId := by
  unfold ArrayStore.activateBuffer ArrayStore.bufAt
  exact getD_set_self _ _ h

theorem activateBuffer_bufAt_ne [Inhabited E] {bufId j : Nat} (t : Nat)
    (h : bufId ≠ j) :
    (st.activateBuffer t bufId).bufAt j = st.bufAt j := by
  unfold ArrayStore.activateBuffer ArrayStore.bufAt
  exact getD_set_ne _ _ h

theorem activateBuffer_blen [Inhabited E] (t bufId : Nat) :
    (st.activateBuffer t bufId).buffers.length = st.buffers.length := by
  unfold ArrayStore.activateBuffer
  exact List.length_set _ _ _

theorem activateBuffer_activeBufferId_self [Inhabited E] {t : Nat} (bufId : Nat)
    (h : t < st.activeBuffers.length) :
    (st.activateBuffer t bufId).activeBufferId t = bufId := by
  unfold ArrayStore.activateBuffer ArrayStore.activeBufferId
  exact getD_set_self _ _ h

theorem activateBuffer_activeBufferId_ne [Inhabited E] {t t2 : Nat} (bufId : Nat)
    (h : t ≠ t2) :
    (st.activateBuffer t bufId).activeBufferId t2 = st.activeBufferId t2 := by
  unfold ArrayStore.activateBuffer ArrayStore.activeBufferId
  exact getD_set_ne _ _ h

end UpdateLemmas

theorem bufferWF_setState {E : Type} {ob m i : Nat} {b : Buffer E}
    (h : bufferWF ob m i b) {s : BufState} (hs : s ≠ BufState.free) :
    bufferWF ob m i { b with state := s } := by
  obtain ⟨h1, h2, h3, h4, h5, _, h7⟩ := h
  exact ⟨h1, h2, h3, h4, h5, fun hf => absurd hf hs, h7⟩

/-!  The central lemma about ensureBufferCapacity. -/

theorem ensure_spec {E : Type} [Inhabited E] {st st' : ArrayStore E} {t n : Nat}
    (hwf : WF st) (ht : t ≤ st.maxSmallArraySize) (hn : n ≤ clusterSize t)
    (h : st.ensureBufferCapacity t n = some st') :
    WF st' ∧ Preserves st st' ∧ st'.curGen = st.curGen ∧
      (st'.bufAt (st'.activeBufferId t)).size + n ≤
        (st'.bufAt (st'.activeBufferId t)).capacity := by
  obtain ⟨ha_lt, ha_t, ha_act⟩ := wf_active hwf t ht
  unfold ArrayStore.ensureBufferCapacity at h
  by_cases hroom : (st.bufAt (st.activeBufferId t)).size + n ≤
      (st.bufAt (st.activeBufferId t)).capacity
  · rw [if_pos hroom] at h
    cases h
    exact ⟨hwf, preserves_refl st, rfl, hroom⟩
  rw [if_neg hroom] at h
  cases hF : findFreeBuffer st.buffers with
  | none => rw [hF] at h; cases h
  | some newId =>
  rw [hF] at h
  cases h
  obtain ⟨hnew_lt, hnew_free⟩ := findFreeBuffer_spec st.buffers newId hF
  have hnew_free : (st.bufAt newId).state = BufState.free := hnew_free
  have hbw_new := wf_buffer hwf newId hnew_lt
  obtain ⟨hnt, hns, hnc⟩ := bw_free hbw_new hnew_free
  have hnew0 : newId ≠ 0 := by
    intro h0
    exact (wf_buf0 hwf).2.1 (h0 ▸ hnew_free)
  have hanew : st.activeBufferId t ≠ newId := by
    intro he
    rw [he, hnew_free] at ha_act
    cases ha_act
  set a := st.activeBufferId t with ha_def
  set st2 := (st.holdBufferOp a).activateBuffer t newId with hst2
  have hmc2 : (st.holdBufferOp a).maxClusters = st.maxClusters := rfl
  have hob2 : (st.holdBufferOp a).offsetBits = st.offsetBits := rfl
  have hb_new : st2.bufAt newId =
      freshActiveBuffer E st.maxClusters st.offsetBits t newId := by
    rw [hst2, activateBuffer_bufAt_self _ t (by rw [holdBufferOp_blen]; exact hnew_lt)]
    rfl
  have hb_a : st2.bufAt a = { st.bufAt a with state := BufState.hold } := by
    rw [hst2, activateBuffer_bufAt_ne _ t (Ne.symm hanew),
        holdBufferOp_bufAt_self st ha_lt]
  have hb_other : ∀ j, j ≠ a → j ≠ newId → st2.bufAt j = st.bufAt j := by
    intro j hja hjn
    rw [hst2, activateBuffer_bufAt_ne _ t (Ne.symm hjn),
        holdBufferOp_bufAt_ne st (Ne.symm hja)]
  have halen : (st.holdBufferOp a).activeBuffers.length =
      st.maxSmallArraySize + 1 := by
    show st.activeBuffers.length = st.maxSmallArraySize + 1
    exact wf_alen hwf
  have hact_t : st2.activeBufferId t = newId := by
    rw [hst2, activateBuffer_activeBufferId_self _ newId (by rw [halen]; omega)]
  have hact_ne : ∀ t2, t2 ≠ t → st2.activeBufferId t2 = st.activeBufferId t2 := by
    intro t2 ht2
    rw [hst2, activateBuffer_activeBufferId_ne _ newId (Ne.symm ht2)]
    rfl
  have hlen2 : st2.buffers.length = st.buffers.length := by
    rw [hst2, activateBuffer_blen, holdBufferOp_blen]
  have hmin1 : 1 ≤ min st.maxClusters (2 ^ st.offsetBits) :=
    le_min (wf_mc hwf) Nat.one_le_two_pow
  -- the individual buffers of st2 are well-formed
  have hbwf2 : ∀ i, i < st2.buffers.length →
      bufferWF st2.offsetBits st2.maxSmallArraySize i (st2.bufAt i) := by
    intro i hi
    rw [hlen2] at hi
    by_cases hia : i = a
    · subst hia
      rw [hb_a]
      exact bufferWF_setState (wf_buffer hwf _ hi) (by decide)
    by_cases hin : i = newId
    · subst hin
      rw [hb_new]
      exact freshActiveBuffer_bufferWF (wf_mc hwf) ht
    · rw [hb_other i hia hin]
      exact wf_buffer hwf i hi
  -- the active buffer of every type is active and has the right type id
  have hactive2 : ∀ t2, t2 ≤ st2.maxSmallArraySize →
      st2.activeBufferId t2 < st2.buffers.length ∧
      (st2.bufAt (st2.activeBufferId t2)).typeId = t2 ∧
      (st2.bufAt (st2.activeBufferId t2)).state = BufState.active := by
    intro t2 ht2
    by_cases ht2t : t2 = t
    · subst ht2t
      rw [hact_t, hb_new, hlen2]
      exact ⟨hnew_lt, rfl, rfl⟩
    · obtain ⟨hlt2, htid2, hst2act⟩ := wf_active hwf t2 ht2
      have hne_a : st.activeBufferId t2 ≠ a := by
        intro he
        rw [he] at htid2
        rw [ha_t] at htid2
        exact ht2t htid2.symm
      have hne_n : st.activeBufferId t2 ≠ newId := by
        intro he
        rw [he, hnew_free] at hst2act
        cases hst2act
      rw [hact_ne t2 ht2t, hlen2,
          hb_other (st.activeBufferId t2) hne_a hne_n]
      exact ⟨hlt2, htid2, hst2act⟩
  have hbuf0 : (st2.bufAt 0).typeId = 0 ∧
      (st2.bufAt 0).state ≠ BufState.free ∧ 0 < (st2.bufAt 0).size := by
    obtain ⟨hz1, hz2, hz3⟩ := wf_buf0 hwf
    by_cases h0a : (0 : Nat) = a
    · rw [← h0a] at hb_a
      rw [hb_a]
      exact ⟨hz1, by simp, hz3⟩
    · rw [hb_other 0 h0a (Ne.symm hnew0)]
      exact ⟨hz1, hz2, hz3⟩
  have e1 : st2.offsetBits = st.offsetBits := rfl
  have e3 : st2.maxClusters = st.maxClusters := rfl
  have hwf2 : WF st2 := by
    refine ⟨?_, ?_, ?_, ?_, ?_, hbwf2, hactive2, hbuf0⟩
    · rw [e1]; exact wf_obits hwf
    · rw [e1]; exact wf_obits_le hwf
    · rw [e3]; exact wf_mc hwf
    · rw [hlen2, e1]; exact wf_blen hwf
    · show (st.activeBuffers.set t newId).length = st.maxSmallArraySize + 1
      rw [List.length_set]
      exact wf_alen hwf
  -- preservation of live refs
  have hlive : ∀ r, st.refLive r → st2.refLive r ∧ st2.get r = st.get r := by
    intro r hr
    have hrn : st.bufIdOf r ≠ newId := by
      intro he
      obtain ⟨hr0, hrlt, hrs, hrl⟩ := hr
      rw [he] at hrs hrl
      have hlen0 := size_large (bw_large hbw_new hnt)
      have := hrl hnt
      omega
    have hT : (st2.bufAt (st.bufIdOf r)).typeId =
        (st.bufAt (st.bufIdOf r)).typeId := by
      by_cases hra : st.bufIdOf r = a
      · rw [hra, hb_a]
      · rw [hb_other _ hra hrn]
    have hD : (st2.bufAt (st.bufIdOf r)).data =
        (st.bufAt (st.bufIdOf r)).data := by
      by_cases hra : st.bufIdOf r = a
      · rw [hra, hb_a]
      · rw [hb_other _ hra hrn]
    have hob : st2.offsetBits = st.offsetBits := rfl
    exact ⟨refLive_congr_parts hob hlen2 hT hD hr, get_congr_parts hob hT hD⟩
  have hnonfree : ∀ i, i < st.buffers.length →
      (st.bufAt i).state ≠ BufState.free →
      (st2.bufAt i).state ≠ BufState.free := by
    intro i hi hif
    by_cases hia : i = a
    · rw [hia, hb_a]; simp
    by_cases hin : i = newId
    · rw [hin, hb_new]; simp [freshActiveBuffer]
    · rw [hb_other i hia hin]; exact hif
  have hcount : countNonFree st2.buffers + st.numActiveBuffers =
      countNonFree st.buffers + st2.numActiveBuffers := by
    have hnum2 : st2.numActiveBuffers = st.numActiveBuffers + 1 := rfl
    have hbufs2 : st2.buffers =
        (st.buffers.set a { st.bufAt a with state := BufState.hold }).set newId
          (freshActiveBuffer E st.maxClusters st.offsetBits t newId) := rfl
    have s1 : ((st.buffers.set a { st.bufAt a with state := BufState.hold })).countP
        (fun b => decide (b.state ≠ BufState.free)) =
        st.buffers.countP (fun b => decide (b.state ≠ BufState.free)) := by
      apply countP_set_same _ _ _ _ (freeBuffer E) ha_lt
      have hgd : (st.buffers.getD a (freeBuffer E)).state = BufState.active :=
        ha_act
      rw [List.getD_eq_getElem?_getD] at hgd
      simp [hgd]
    have s2 : (((st.buffers.set a { st.bufAt a with state := BufState.hold })).set
          newId (freshActiveBuffer E st.maxClusters st.offsetBits t newId)).countP
        (fun b => decide (b.state ≠ BufState.free)) =
        ((st.buffers.set a { st.bufAt a with state := BufState.hold })).countP
          (fun b => decide (b.state ≠ BufState.free)) + 1 := by
      apply countP_set_incr _ _ _ _ (freeBuffer E)
        (by rw [List.length_set]; exact hnew_lt)
      · rw [getD_set_ne _ _ hanew]
        have hgd : (st.buffers.getD newId (freeBuffer E)).state = BufState.free :=
          hnew_free
        rw [List.getD_eq_getElem?_getD] at hgd
        simp [hgd]
      · simp [freshActiveBuffer]
    unfold countNonFree
    rw [hnum2, hbufs2, s2, s1]
    omega
  have hactivesP : ∀ t2, t2 ≤ st.maxSmallArraySize →
      st2.activeBufferId t2 = st.activeBufferId t2 ∨
        (st.bufAt (st2.activeBufferId t2)).state = BufState.free := by
    intro t2 _
    by_cases ht2t : t2 = t
    · subst ht2t
      rw [hact_t]
      exact Or.inr hnew_free
    · exact Or.inl (hact_ne t2 ht2t)
  refine ⟨hwf2, ⟨rfl, rfl, rfl, rfl, hlen2, hlive, hnonfree, hcount, hactivesP⟩,
          rfl, ?_⟩
  rw [hact_t, hb_new]
  rw [freshActiveBuffer_size_of_ne hnew0]
  have : clusterSize t ≤ clusterSize t * min st.maxClusters (2 ^ st.offsetBits) := by
    calc clusterSize t = clusterSize t * 1 := by omega
    _ ≤ _ := Nat.mul_le_mul_left _ hmin1
  have hcap : (freshActiveBuffer E st.maxClusters st.offsetBits t newId).capacity =
      clusterSize t * min st.maxClusters (2 ^ st.offsetBits) := rfl
  rw [hcap]
  omega

/-!  Evaluation of `get` on the two buffer classes. -/

theorem get_eval_small {E : Type} {st : ArrayStore E} {r : Nat} (hr0 : r ≠ 0)
    (hT : (st.bufAt (st.bufIdOf r)).typeId ≠ 0) :
    st.get r = ((st.bufAt (st.bufIdOf r)).smallElems.drop
        (st.offOf r * (st.bufAt (st.bufIdOf r)).typeId)).take
      (st.bufAt (st.bufIdOf r)).typeId := by
  simp [ArrayStore.get, getArraySize, hr0, hT]

theorem get_eval_large {E : Type} {st : ArrayStore E} {r : Nat} (hr0 : r ≠ 0)
    (hT : (st.bufAt (st.bufIdOf r)).typeId = 0) :
    st.get r = (st.bufAt (st.bufIdOf r)).largeArrays.getD (st.offOf r) [] := by
  simp [ArrayStore.get, getArraySize, hr0, hT]

/-!  Appending to a buffer preserves every live ref. -/

theorem preserves_pushSmall {E : Type} (st : ArrayStore E) (A : Nat) (a : List E)
    (hA : A < st.buffers.length) (hT : (st.bufAt A).typeId ≠ 0) :
    Preserves st (st.setBuf A ((st.bufAt A).pushSmall a)) := by
  set st' := st.setBuf A ((st.bufAt A).pushSmall a) with hst'
  have hlen : st'.buffers.length = st.buffers.length := setBuf_blen st A _
  have hob : st'.offsetBits = st.offsetBits := rfl
  have hbufA : st'.bufAt A = (st.bufAt A).pushSmall a :=
    setBuf_bufAt_self st _ hA
  have hbufO : ∀ j, j ≠ A → st'.bufAt j = st.bufAt j := by
    intro j hj
    exact setBuf_bufAt_ne st _ (Ne.symm hj)
  refine ⟨rfl, rfl, rfl, rfl, hlen, ?_, ?_, ?_, fun t _ => Or.inl rfl⟩
  · intro r hr
    obtain ⟨hr0, hrlt, hrs, hrl⟩ := hr
    by_cases hc : st.bufIdOf r = A
    · have hsb : st'.bufIdOf r = st.bufIdOf r := rfl
      have hTr : (st.bufAt (st.bufIdOf r)).typeId ≠ 0 := by rw [hc]; exact hT
      have hbound := hrs hTr
      have hb' : st'.bufAt (st.bufIdOf r) = (st.bufAt (st.bufIdOf r)).pushSmall a := by
        rw [hc, hbufA]
      constructor
      · refine ⟨hr0, by rw [hsb, hlen]; exact hrlt, ?_, ?_⟩
        · intro hT2
          have hb2 : (st.offOf r + 1) * (st.bufAt (st.bufIdOf r)).typeId ≤
              (st.bufAt (st.bufIdOf r)).smallElems.length := hbound
          rw [hsb, hb', pushSmall_typeId, pushSmall_smallElems]
          have hoo : st'.offOf r = st.offOf r := rfl
          rw [hoo, List.length_append]
          omega
        · intro hT2
          rw [hsb, hb', pushSmall_typeId] at hT2
          exact absurd hT2 hTr
      · have g1 := @get_eval_small E st r hr0 hTr
        have hT' : (st'.bufAt (st'.bufIdOf r)).typeId ≠ 0 := by
          rw [hsb, hb', pushSmall_typeId]; exact hTr
        have g2 := @get_eval_small E st' r hr0 hT'
        rw [g2, g1, hsb, hb', pushSmall_typeId, pushSmall_smallElems]
        have hoo : st'.offOf r = st.offOf r := rfl
        rw [hoo]
        apply take_drop_append
        have hdist : (st.offOf r + 1) * (st.bufAt (st.bufIdOf r)).typeId =
            st.offOf r * (st.bufAt (st.bufIdOf r)).typeId +
              (st.bufAt (st.bufIdOf r)).typeId := by ring
        omega
    · have hsb : st'.bufIdOf r = st.bufIdOf r := rfl
      have hb' := hbufO _ hc
      exact ⟨refLive_congr_parts hob hlen (by rw [hb']) (by rw [hb'])
              ⟨hr0, hrlt, hrs, hrl⟩,
             get_congr_parts hob (by rw [hb']) (by rw [hb'])⟩
  · intro i hi hif
    by_cases hc : i = A
    · rw [hc, hbufA, pushSmall_state]
      rw [hc] at hif
      exact hif
    · rw [hbufO i hc]
      exact hif
  · have hc1 : countNonFree st'.buffers = countNonFree st.buffers := by
      unfold countNonFree
      apply countP_set_same _ _ _ _ (freeBuffer E) hA
      have hgd : (st.buffers.getD A (freeBuffer E)) = st.bufAt A := rfl
      rw [hgd, pushSmall_state]
    have hc2 : st'.numActiveBuffers = st.numActiveBuffers := rfl
    rw [hc1, hc2]

theorem preserves_pushLarge {E : Type} (st : ArrayStore E) (A : Nat) (a : List E)
    (x : Nat) (hA : A < st.buffers.length) (hT : (st.bufAt A).typeId = 0) :
    Preserves st (st.setBuf A ((st.bufAt A).pushLarge a x)) := by
  set st' := st.setBuf A ((st.bufAt A).pushLarge a x) with hst'
  have hlen : st'.buffers.length = st.buffers.length := setBuf_blen st A _
  have hob : st'.offsetBits = st.offsetBits := rfl
  have hbufA : st'.bufAt A = (st.bufAt A).pushLarge a x :=
    setBuf_bufAt_self st _ hA
  have hbufO : ∀ j, j ≠ A → st'.bufAt j = st.bufAt j := by
    intro j hj
    exact setBuf_bufAt_ne st _ (Ne.symm hj)
  refine ⟨rfl, rfl, rfl, rfl, hlen, ?_, ?_, ?_, fun t _ => Or.inl rfl⟩
  · intro r hr
    obtain ⟨hr0, hrlt, hrs, hrl⟩ := hr
    by_cases hc : st.bufIdOf r = A
    · have hsb : st'.bufIdOf r = st.bufIdOf r := rfl
      have hTr : (st.bufAt (st.bufIdOf r)).typeId = 0 := by rw [hc]; exact hT
      have hbound := hrl hTr
      have hb' : st'.bufAt (st.bufIdOf r) =
          (st.bufAt (st.bufIdOf r)).pushLarge a x := by
        rw [hc, hbufA]
      constructor
      · refine ⟨hr0, by rw [hsb, hlen]; exact hrlt, ?_, ?_⟩
        · intro hT2
          rw [hsb, hb', pushLarge_typeId] at hT2
          exact absurd hTr hT2
        · intro _
          rw [hsb, hb', pushLarge_largeArrays]
          have : st'.offOf r = st.offOf r := rfl
          rw [this]
          simp only [List.length_append, List.length_cons, List.length_nil]
          omega
      · have g1 := @get_eval_large E st r hr0 hTr
        have hT' : (st'.bufAt (st'.bufIdOf r)).typeId = 0 := by
          rw [hsb, hb', pushLarge_typeId]; exact hTr
        have g2 := @get_eval_large E st' r hr0 hT'
        rw [g2, g1, hsb, hb', pushLarge_largeArrays]
        have hoo : st'.offOf r = st.offOf r := rfl
        rw [hoo]
        exact getD_append_left _ hbound
    · have hsb : st'.bufIdOf r = st.bufIdOf r := rfl
      have hb' := hbufO _ hc
      exact ⟨refLive_congr_parts hob hlen (by rw [hb']) (by rw [hb'])
              ⟨hr0, hrlt, hrs, hrl⟩,
             get_congr_parts hob (by rw [hb']) (by rw [hb'])⟩
  · intro i hi hif
    by_cases hc : i = A
    · rw [hc, hbufA, pushLarge_state]
      rw [hc] at hif
      exact hif
    · rw [hbufO i hc]
      exact hif
  · have hc1 : countNonFree st'.buffers = countNonFree st.buffers := by
      unfold countNonFree
      apply countP_set_same _ _ _ _ (freeBuffer E) hA
      have hgd : (st.buffers.getD A (freeBuffer E)) = st.bufAt A := rfl
      rw [hgd, pushLarge_state]
    have hc2 : st'.numActiveBuffers = st.numActiveBuffers := rfl
    rw [hc1, hc2]

/-!  Encode-decode round trips at the store level. -/

theorem bufIdOf_encode {E : Type} {st : ArrayStore E} {ob off bufId : Nat}
    (hob : st.offsetBits = ob) (h : off < 2 ^ ob) :
    st.bufIdOf (refEncode ob off bufId) = bufId := by
  unfold ArrayStore.bufIdOf
  rw [hob]
  exact refBufferId_encode h

theorem offOf_encode {E : Type} {st : ArrayStore E} {ob off bufId : Nat}
    (hob : st.offsetBits = ob) (h : off < 2 ^ ob) :
    st.offOf (refEncode ob off bufId) = off := by
  unfold ArrayStore.offOf
  rw [hob]
  exact refOffset_encode h

/-!  Well-formedness after an append. -/

theorem wf_after_pushSmall {E : Type} [Inhabited E] {st1 : ArrayStore E}
    {a : List E} (hwf1 : WF st1) (ha : 0 < a.length)
    (hle : a.length ≤ st1.maxSmallArraySize)
    (hroom : (st1.bufAt (st1.activeBufferId a.length)).size + a.length ≤
      (st1.bufAt (st1.activeBufferId a.length)).capacity) :
    WF (st1.setBuf (st1.activeBufferId a.length)
      ((st1.bufAt (st1.activeBufferId a.length)).pushSmall a)) := by
  obtain ⟨hA_lt, hA_t, hA_act⟩ := wf_active hwf1 a.length hle
  set A := st1.activeBufferId a.length with hAdef
  set st' := st1.setBuf A ((st1.bufAt A).pushSmall a) with hst'
  have hbw := wf_buffer hwf1 A hA_lt
  have hTne : (st1.bufAt A).typeId ≠ 0 := by rw [hA_t]; omega
  obtain ⟨hsm, hmod⟩ := bw_small hbw hTne
  have helems : (st1.bufAt A).size = (st1.bufAt A).smallElems.length :=
    size_small hsm
  have hA0 : A ≠ 0 := by
    intro h0
    rw [h0] at hA_t
    rw [(wf_buf0 hwf1).1] at hA_t
    omega
  have hlen : st'.buffers.length = st1.buffers.length := setBuf_blen st1 A _
  have hbufA : st'.bufAt A = (st1.bufAt A).pushSmall a :=
    setBuf_bufAt_self st1 _ hA_lt
  have hbufO : ∀ j, j ≠ A → st'.bufAt j = st1.bufAt j := by
    intro j hj
    exact setBuf_bufAt_ne st1 _ (Ne.symm hj)
  have e1 : st'.offsetBits = st1.offsetBits := rfl
  have e2 : st'.maxSmallArraySize = st1.maxSmallArraySize := rfl
  have e3 : st'.maxClusters = st1.maxClusters := rfl
  have hbwfA : bufferWF st'.offsetBits st'.maxSmallArraySize A (st'.bufAt A) := by
    rw [hbufA, e1, e2]
    obtain ⟨w1, w2, w3, _, _, _, _⟩ := hbw
    refine ⟨?_, ?_, ?_, ?_, ?_, ?_, ?_⟩
    · rw [pushSmall_typeId]; exact w1
    · rw [pushSmall_size]
      have hc : ((st1.bufAt A).pushSmall a).capacity = (st1.bufAt A).capacity := rfl
      rw [hc]
      omega
    · rw [pushSmall_typeId]
      exact w3
    · intro _
      constructor
      · rfl
      · rw [pushSmall_size, pushSmall_typeId, hA_t]
        have hm0 : (st1.bufAt A).smallElems.length % a.length = 0 := by
          rw [← helems, ← hA_t]
          exact hmod
        rw [Nat.add_mod_right]
        exact hm0
    · intro h0
      rw [pushSmall_typeId] at h0
      exact absurd h0 hTne
    · intro hf
      rw [pushSmall_state] at hf
      rw [hf] at hA_act
      cases hA_act
    · intro h0
      rw [pushSmall_typeId] at h0
      exact absurd h0 hTne
  refine ⟨?_, ?_, ?_, ?_, ?_, ?_, ?_, ?_, ?_, ?_⟩
  · rw [e1]; exact wf_obits hwf1
  · rw [e1]; exact wf_obits_le hwf1
  · rw [e3]; exact wf_mc hwf1
  · rw [hlen, e1]; exact wf_blen hwf1
  · show st1.activeBuffers.length = st1.maxSmallArraySize + 1
    exact wf_alen hwf1
  · intro i hi
    rw [hlen] at hi
    by_cases hiA : i = A
    · rw [hiA]; exact hbwfA
    · rw [hbufO i hiA, e1, e2]
      exact wf_buffer hwf1 i hi
  · intro t2 ht2
    rw [e2] at ht2
    have hsame : st'.activeBufferId t2 = st1.activeBufferId t2 := rfl
    obtain ⟨l1, l2, l3⟩ := wf_active hwf1 t2 ht2
    by_cases hiA : st1.activeBufferId t2 = A
    · rw [hsame, hiA, hbufA, hlen, pushSmall_typeId, pushSmall_state]
      rw [hiA] at l2
      exact ⟨hA_lt, l2, hA_act⟩
    · rw [hsame, hlen, hbufO _ hiA]
      exact ⟨l1, l2, l3⟩
  · rw [hbufO 0 (Ne.symm hA0)]
    exact (wf_buf0 hwf1).1
  · rw [hbufO 0 (Ne.symm hA0)]
    exact (wf_buf0 hwf1).2.1
  · rw [hbufO 0 (Ne.symm hA0)]
    exact (wf_buf0 hwf1).2.2

theorem wf_after_pushLarge {E : Type} [Inhabited E] {st1 : ArrayStore E}
    {a : List E} {x : Nat} (hwf1 : WF st1) (ha : 0 < a.length)
    (hroom : (st1.bufAt (st1.activeBufferId 0)).size + 1 ≤
      (st1.bufAt (st1.activeBufferId 0)).capacity) :
    WF (st1.setBuf (st1.activeBufferId 0)
      ((st1.bufAt (st1.activeBufferId 0)).pushLarge a x)) := by
  obtain ⟨hA_lt, hA_t, hA_act⟩ := wf_active hwf1 0 (Nat.zero_le _)
  set A := st1.activeBufferId 0 with hAdef
  set st' := st1.setBuf A ((st1.bufAt A).pushLarge a x) with hst'
  have hbw := wf_buffer hwf1 A hA_lt
  have hT0 : (st1.bufAt A).typeId = 0 := hA_t
  have hlg : (st1.bufAt A).data.isSmall = false := bw_large hbw hT0
  have hsz : (st1.bufAt A).size = (st1.bufAt A).largeArrays.length :=
    size_large hlg
  have hlen : st'.buffers.length = st1.buffers.length := setBuf_blen st1 A _
  have hbufA : st'.bufAt A = (st1.bufAt A).pushLarge a x :=
    setBuf_bufAt_self st1 _ hA_lt
  have hbufO : ∀ j, j ≠ A → st'.bufAt j = st1.bufAt j := by
    intro j hj
    exact setBuf_bufAt_ne st1 _ (Ne.symm hj)
  have e1 : st'.offsetBits = st1.offsetBits := rfl
  have e2 : st'.maxSmallArraySize = st1.maxSmallArraySize := rfl
  have e3 : st'.maxClusters = st1.maxClusters := rfl
  have hbwfA : bufferWF st'.offsetBits st'.maxSmallArraySize A (st'.bufAt A) := by
    rw [hbufA, e1, e2]
    obtain ⟨_, w2, w3, _, _, _, w7⟩ := hbw
    refine ⟨?_, ?_, ?_, ?_, ?_, ?_, ?_⟩
    · rw [pushLarge_typeId, hT0]; exact Nat.zero_le _
    · rw [pushLarge_size]
      have hc : ((st1.bufAt A).pushLarge a x).capacity = (st1.bufAt A).capacity := rfl
      rw [hc]
      omega
    · rw [pushLarge_typeId]
      exact w3
    · intro h0
      rw [pushLarge_typeId] at h0
      exact absurd hT0 h0
    · intro _
      rfl
    · intro hf
      rw [pushLarge_state] at hf
      rw [hf] at hA_act
      cases hA_act
    · intro _ j hj _
      rw [pushLarge_largeArrays] at hj ⊢
      rw [List.length_append, List.length_cons, List.length_nil] at hj
      by_cases hjl : j < (st1.bufAt A).largeArrays.length
      · rw [getD_append_left _ hjl]
        by_cases hj0 : j = 0
        · subst hj0
          by_cases hA0 : A = 0
          · -- the reserved slot of buffer 0 is never designated by a valid
            -- ref, but it is also only present when the buffer id is 0;
            -- slot 0 of buffer 0 can stay empty only behind the invalid ref
            exact w7 hT0 0 hjl (by omega)
          · exact w7 hT0 0 hjl (Or.inr hA0)
        · exact w7 hT0 j hjl (Or.inl hj0)
      · have hjeq : j = (st1.bufAt A).largeArrays.length := by omega
        rw [hjeq, getD_concat_length]
        intro hnil
        rw [hnil] at ha
        simp at ha
  refine ⟨?_, ?_, ?_, ?_, ?_, ?_, ?_, ?_, ?_, ?_⟩
  · rw [e1]; exact wf_obits hwf1
  · rw [e1]; exact wf_obits_le hwf1
  · rw [e3]; exact wf_mc hwf1
  · rw [hlen, e1]; exact wf_blen hwf1
  · show st1.activeBuffers.length = st1.maxSmallArraySize + 1
    exact wf_alen hwf1
  · intro i hi
    rw [hlen] at hi
    by_cases hiA : i = A
    · rw [hiA]; exact hbwfA
    · rw [hbufO i hiA, e1, e2]
      exact wf_buffer hwf1 i hi
  · intro t2 ht2
    rw [e2] at ht2
    have hsame : st'.activeBufferId t2 = st1.activeBufferId t2 := rfl
    obtain ⟨l1, l2, l3⟩ := wf_active hwf1 t2 ht2
    by_cases hiA : st1.activeBufferId t2 = A
    · rw [hsame, hiA, hbufA, hlen, pushLarge_typeId, pushLarge_state]
      rw [hiA] at l2
      exact ⟨hA_lt, l2, hA_act⟩
    · rw [hsame, hlen, hbufO _ hiA]
      exact ⟨l1, l2, l3⟩
  · by_cases hA0 : A = 0
    · have hbufA0 : st'.bufAt 0 = (st1.bufAt 0).pushLarge a x := hA0 ▸ hbufA
      have hT00 : (st1.bufAt 0).typeId = 0 := hA0 ▸ hT0
      rw [hbufA0, pushLarge_typeId]
      exact hT00
    · rw [hbufO 0 (fun he => hA0 he.symm)]
      exact (wf_buf0 hwf1).1
  · by_cases hA0 : A = 0
    · have hbufA0 : st'.bufAt 0 = (st1.bufAt 0).pushLarge a x := hA0 ▸ hbufA
      have hact0 : (st1.bufAt 0).state = BufState.active := hA0 ▸ hA_act
      rw [hbufA0, pushLarge_state, hact0]
      simp
    · rw [hbufO 0 (fun he => hA0 he.symm)]
      exact (wf_buf0 hwf1).2.1
  · by_cases hA0 : A = 0
    · have hbufA0 : st'.bufAt 0 = (st1.bufAt 0).pushLarge a x := hA0 ▸ hbufA
      rw [hbufA0, pushLarge_size]
      omega
    · rw [hbufO 0 (fun he => hA0 he.symm)]
      exact (wf_buf0 hwf1).2.2

/-!  Full characterisation of the two add paths. -/

theorem addSmall_spec {E : Type} [Inhabited E] {st st' : ArrayStore E}
    {a : List E} {r : Nat}
    (hwf : WF st) (ha : 0 < a.length) (hle : a.length ≤ st.maxSmallArraySize)
    (h : st.addSmallArray a = some (r, st')) :
    ∃ st1, st.ensureBufferCapacity (getTypeId a.length) a.length = some st1 ∧
      r = refEncode st1.offsetBits
            ((st1.bufAt (st1.activeBufferId a.length)).size / a.length)
            (st1.activeBufferId a.length) ∧
      st' = st1.setBuf (st1.activeBufferId a.length)
            ((st1.bufAt (st1.activeBufferId a.length)).pushSmall a) ∧
      st'.bufIdOf r = st1.activeBufferId a.length ∧
      st'.offOf r = (st1.bufAt (st1.activeBufferId a.length)).size / a.length ∧
      a.length ∣ (st1.bufAt (st1.activeBufferId a.length)).size ∧
      (st'.bufAt (st'.bufIdOf r)).typeId = a.length ∧
      (st'.bufAt (st'.bufIdOf r)).size =
        (st1.bufAt (st1.activeBufferId a.length)).size + a.length ∧
      WF st' ∧ Preserves st st' ∧ st'.curGen = st.curGen ∧
      st'.get r = a ∧ st'.refLive r := by
  unfold ArrayStore.addSmallArray at h
  cases hE : st.ensureBufferCapacity (getTypeId a.length) a.length with
  | none => rw [hE] at h; cases h
  | some st1 =>
  rw [hE] at h
  simp only [Option.some.injEq, Prod.mk.injEq] at h
  obtain ⟨hr, hst⟩ := h
  have hn : a.length ≤ clusterSize (getTypeId a.length) := by
    unfold clusterSize getTypeId
    split <;> omega
  obtain ⟨hwf1, hpres1, hgen1, hroom⟩ := ensure_spec hwf hle hn hE
  have hms1 : st1.maxSmallArraySize = st.maxSmallArraySize := hpres1.msmall
  have hle1 : a.length ≤ st1.maxSmallArraySize := by rw [hms1]; exact hle
  obtain ⟨hA_lt, hA_t, hA_act⟩ := wf_active hwf1 a.length hle1
  set A := st1.activeBufferId a.length with hAdef
  have hbw := wf_buffer hwf1 A hA_lt
  have hTne : (st1.bufAt A).typeId ≠ 0 := by rw [hA_t]; omega
  obtain ⟨hsm, hmod0⟩ := bw_small hbw hTne
  have hmod : (st1.bufAt A).size % a.length = 0 := by rw [← hA_t]; exact hmod0
  have hdvd : a.length ∣ (st1.bufAt A).size := Nat.dvd_of_mod_eq_zero hmod
  have helems : (st1.bufAt A).size = (st1.bufAt A).smallElems.length :=
    size_small hsm
  have hA0 : A ≠ 0 := by
    intro h0
    rw [h0, (wf_buf0 hwf1).1] at hA_t
    omega
  have hcap : (st1.bufAt A).capacity ≤ a.length * 2 ^ st1.offsetBits := by
    have := bw_cap_le hbw
    rw [hA_t] at this
    unfold clusterSize at this
    rw [if_neg (by omega)] at this
    exact this
  have hoff_lt : (st1.bufAt A).size / a.length < 2 ^ st1.offsetBits := by
    apply (Nat.div_lt_iff_lt_mul ha).mpr
    rw [Nat.mul_comm]
    omega
  subst hst
  subst hr
  set off := (st1.bufAt A).size / a.length with hoffdef
  set st' := st1.setBuf A ((st1.bufAt A).pushSmall a) with hst'
  set r := refEncode st1.offsetBits off A with hrdef
  have hr0 : r ≠ 0 := refEncode_ne_zero_of_bufId hA0
  have hob' : st'.offsetBits = st1.offsetBits := rfl
  have hbid : st'.bufIdOf r = A := bufIdOf_encode hob' hoff_lt
  have hoff : st'.offOf r = off := offOf_encode hob' hoff_lt
  have hbufA : st'.bufAt A = (st1.bufAt A).pushSmall a :=
    setBuf_bufAt_self st1 _ hA_lt
  have hA_t2 : (st1.bufAt A).typeId = a.length := hA_t
  have hTy : (st'.bufAt (st'.bufIdOf r)).typeId = a.length := by
    rw [hbid, hbufA, pushSmall_typeId]
    exact hA_t2
  have hoffmul : off * a.length = (st1.bufAt A).size :=
    Nat.div_mul_cancel hdvd
  have hget : st'.get r = a := by
    have hT' : (st'.bufAt (st'.bufIdOf r)).typeId ≠ 0 := by rw [hTy]; omega
    rw [get_eval_small hr0 hT', hbid, hoff, hbufA, pushSmall_typeId,
        pushSmall_smallElems, hA_t2, hoffmul, helems, List.drop_left]
    exact List.take_length a
  have hlive : st'.refLive r := by
    refine ⟨hr0, ?_, ?_, ?_⟩
    · rw [hbid, setBuf_blen]
      exact hA_lt
    · intro _
      rw [hbid, hoff, hbufA, pushSmall_typeId, pushSmall_smallElems, hA_t2,
          List.length_append]
      have hdist : (off + 1) * a.length = off * a.length + a.length := by ring
      omega
    · intro hcon
      rw [hbid, hbufA, pushSmall_typeId, hA_t2] at hcon
      omega
  have hwf' : WF st' := wf_after_pushSmall hwf1 ha hle1 hroom
  have hpres2 : Preserves st1 st' := preserves_pushSmall st1 A a hA_lt hTne
  have hszsize : (st'.bufAt (st'.bufIdOf r)).size = (st1.bufAt A).size + a.length := by
    rw [hbid, hbufA, pushSmall_size, ← helems]
  refine ⟨st1, rfl, rfl, rfl, hbid, hoff, hdvd, hTy, hszsize, hwf',
          preserves_trans hpres1 hpres2, ?_, hget, hlive⟩
  show st1.curGen = st.curGen
  exact hgen1

theorem addLarge_spec {E : Type} [Inhabited E] {st st' : ArrayStore E}
    {a : List E} {r : Nat}
    (hwf : WF st) (ha : 0 < a.length)
    (h : st.addLargeArray a = some (r, st')) :
    ∃ st1, st.ensureBufferCapacity 0 1 = some st1 ∧
      r = refEncode st1.offsetBits (st1.bufAt (st1.activeBufferId 0)).size
            (st1.activeBufferId 0) ∧
      st' = st1.setBuf (st1.activeBufferId 0)
            ((st1.bufAt (st1.activeBufferId 0)).pushLarge a
              (st1.entrySize * a.length)) ∧
      st'.bufIdOf r = st1.activeBufferId 0 ∧
      st'.offOf r = (st1.bufAt (st1.activeBufferId 0)).size ∧
      (st'.bufAt (st'.bufIdOf r)).typeId = 0 ∧
      (st'.bufAt (st'.bufIdOf r)).extraBytes =
        (st1.bufAt (st1.activeBufferId 0)).extraBytes +
          st1.entrySize * a.length ∧
      WF st' ∧ Preserves st st' ∧ st'.curGen = st.curGen ∧
      st'.get r = a ∧ st'.refLive r := by
  unfold ArrayStore.addLargeArray at h
  cases hE : st.ensureBufferCapacity 0 1 with
  | none => rw [hE] at h; cases h
  | some st1 =>
  rw [hE] at h
  simp only [Option.some.injEq, Prod.mk.injEq] at h
  obtain ⟨hr, hst⟩ := h
  have hn : 1 ≤ clusterSize 0 := by unfold clusterSize; simp
  obtain ⟨hwf1, hpres1, hgen1, hroom⟩ := ensure_spec hwf (Nat.zero_le _) hn hE
  obtain ⟨hA_lt, hA_t, hA_act⟩ := wf_active hwf1 0 (Nat.zero_le _)
  set A := st1.activeBufferId 0 with hAdef
  have hbw := wf_buffer hwf1 A hA_lt
  have hlg : (st1.bufAt A).data.isSmall = false := bw_large hbw hA_t
  have hsz : (st1.bufAt A).size = (st1.bufAt A).largeArrays.length :=
    size_large hlg
  have hcap : (st1.bufAt A).capacity ≤ 2 ^ st1.offsetBits := by
    have := bw_cap_le hbw
    rw [hA_t] at this
    unfold clusterSize at this
    rw [if_pos rfl, Nat.one_mul] at this
    exact this
  have hoff_lt : (st1.bufAt A).size < 2 ^ st1.offsetBits := by omega
  subst hst
  subst hr
  set st' := st1.setBuf A ((st1.bufAt A).pushLarge a (st1.entrySize * a.length))
    with hst'
  set r := refEncode st1.offsetBits (st1.bufAt A).size A with hrdef
  have hr0 : r ≠ 0 := by
    by_cases hA0 : A = 0
    · apply refEncode_ne_zero_of_off
      have := (wf_buf0 hwf1).2.2
      rw [← hA0] at this
      omega
    · exact refEncode_ne_zero_of_bufId hA0
  have hob' : st'.offsetBits = st1.offsetBits := rfl
  have hbid : st'.bufIdOf r = A := bufIdOf_encode hob' hoff_lt
  have hoff : st'.offOf r = (st1.bufAt A).size := offOf_encode hob' hoff_lt
  have hbufA : st'.bufAt A =
      (st1.bufAt A).pushLarge a (st1.entrySize * a.length) :=
    setBuf_bufAt_self st1 _ hA_lt
  have hTy : (st'.bufAt (st'.bufIdOf r)).typeId = 0 := by
    rw [hbid, hbufA, pushLarge_typeId]
    exact hA_t
  have hget : st'.get r = a := by
    rw [get_eval_large hr0 hTy, hbid, hoff, hbufA, pushLarge_largeArrays, hsz]
    exact getD_concat_length _ _ _
  have hlive : st'.refLive r := by
    refine ⟨hr0, ?_, ?_, ?_⟩
    · rw [hbid, setBuf_blen]
      exact hA_lt
    · intro hcon
      rw [hbid, hbufA, pushLarge_typeId] at hcon
      exact absurd hA_t hcon
    · intro _
      rw [hbid, hoff, hbufA, pushLarge_largeArrays, List.length_append, hsz]
      simp
  have hextra : (st'.bufAt (st'.bufIdOf r)).extraBytes =
      (st1.bufAt A).extraBytes + st1.entrySize * a.length := by
    rw [hbid, hbufA]
    rfl
  have hwf' : WF st' := wf_after_pushLarge hwf1 ha hroom
  have hpres2 : Preserves st1 st' :=
    preserves_pushLarge st1 A a (st1.entrySize * a.length) hA_lt hA_t
  refine ⟨st1, rfl, rfl, rfl, hbid, hoff, hTy, hextra, hwf',
          preserves_trans hpres1 hpres2, ?_, hget, hlive⟩
  show st1.curGen = st.curGen
  exact hgen1

/-- ArrayStore::add of a non-empty array: summary of the shared facts of the
small and large paths. -/
theorem add_spec {E : Type} [Inhabited E] {st st' : ArrayStore E}
    {a : List E} {r : Nat}
    (hwf : WF st) (ha : 0 < a.length) (h : st.add a = some (r, st')) :
    WF st' ∧ Preserves st st' ∧ st'.curGen = st.curGen ∧
      st'.get r = a ∧ st'.refLive r ∧
      ∃ c, c ≤ st.maxSmallArraySize ∧ st'.bufIdOf r = st'.activeBufferId c := by
  unfold ArrayStore.add at h
  rw [if_neg (by omega)] at h
  by_cases hle : a.length ≤ st.maxSmallArraySize
  · rw [if_pos hle] at h
    obtain ⟨st1, hE, hr, hst, hbid, _, _, _, _, hwf', hpres, hgen, hget, hlive⟩ :=
      addSmall_spec hwf ha hle h
    refine ⟨hwf', hpres, hgen, hget, hlive, a.length, hle, ?_⟩
    rw [hbid, hst]
    rfl
  · rw [if_neg hle] at h
    obtain ⟨st1, hE, hr, hst, hbid, _, _, _, hwf', hpres, hgen, hget, hlive⟩ :=
      addLarge_spec hwf ha h
    refine ⟨hwf', hpres, hgen, hget, hlive, 0, Nat.zero_le _, ?_⟩
    rw [hbid, hst]
    rfl

/-!  Facts about remove. -/

theorem remove_invalid {E : Type} (st : ArrayStore E) : st.remove 0 = st := by
  unfold ArrayStore.remove
  rw [if_pos rfl]

theorem remove_valid {E : Type} (st : ArrayStore E) {r : Nat} (h : r ≠ 0) :
    st.remove r =
      { st with holdList := st.holdList ++ [st.removeHoldEntry r] } := by
  unfold ArrayStore.remove
  rw [if_neg h]

theorem removeHoldEntry_small {E : Type} {st : ArrayStore E} {r : Nat}
    (hT : (st.bufAt (st.bufIdOf r)).typeId ≠ 0) :
    st.removeHoldEntry r =
      HoldEntry.elem st.curGen r
        (getArraySize (st.bufAt (st.bufIdOf r)).typeId) 0 := by
  unfold ArrayStore.removeHoldEntry
  rw [if_pos hT]

theorem removeHoldEntry_large {E : Type} {st : ArrayStore E} {r : Nat}
    (hT : (st.bufAt (st.bufIdOf r)).typeId = 0) :
    st.removeHoldEntry r =
      HoldEntry.elem st.curGen r 1 (st.entrySize * (st.get r).length) := by
  unfold ArrayStore.removeHoldEntry
  rw [if_neg (not_not_intro hT)]

theorem preserves_remove {E : Type} (st : ArrayStore E) (r : Nat) :
    Preserves st (st.remove r) := by
  by_cases h : r = 0
  · rw [h, remove_invalid]
    exact preserves_refl st
  · rw [remove_valid st h]
    exact ⟨rfl, rfl, rfl, rfl, rfl, fun r0 hr => ⟨hr, rfl⟩,
           fun i _ hi => hi, rfl, fun t _ => Or.inl rfl⟩

theorem wf_remove {E : Type} {st : ArrayStore E} (hwf : WF st) (r : Nat) :
    WF (st.remove r) := by
  by_cases h : r = 0
  · rw [h, remove_invalid]
    exact hwf
  · rw [remove_valid st h]
    exact hwf

/-!  Facts about holdBuffer. -/

theorem preserves_holdBuffer {E : Type} (st : ArrayStore E) {i : Nat}
    (hi : i < st.buffers.length)
    (hnf : (st.bufAt i).state ≠ BufState.free) :
    Preserves st (st.holdBufferOp i) := by
  set st' := st.holdBufferOp i with hst'
  have hbufI : st'.bufAt i = { st.bufAt i with state := BufState.hold } :=
    holdBufferOp_bufAt_self st hi
  have hbufO : ∀ j, j ≠ i → st'.bufAt j = st.bufAt j := fun j hj =>
    holdBufferOp_bufAt_ne st (Ne.symm hj)
  have hlen : st'.buffers.length = st.buffers.length := holdBufferOp_blen st i
  have hob : st'.offsetBits = st.offsetBits := rfl
  refine ⟨rfl, rfl, rfl, rfl, hlen, ?_, ?_, ?_, fun t _ => Or.inl rfl⟩
  · intro r hr
    have hT : (st'.bufAt (st.bufIdOf r)).typeId =
        (st.bufAt (st.bufIdOf r)).typeId := by
      by_cases hc : st.bufIdOf r = i
      · rw [hc, hbufI]
      · rw [hbufO _ hc]
    have hD : (st'.bufAt (st.bufIdOf r)).data =
        (st.bufAt (st.bufIdOf r)).data := by
      by_cases hc : st.bufIdOf r = i
      · rw [hc, hbufI]
      · rw [hbufO _ hc]
    exact ⟨refLive_congr_parts hob hlen hT hD hr, get_congr_parts hob hT hD⟩
  · intro j hj hjf
    by_cases hc : j = i
    · rw [hc, hbufI]
      simp
    · rw [hbufO _ hc]
      exact hjf
  · have hc1 : countNonFree st'.buffers = countNonFree st.buffers := by
      unfold countNonFree
      apply countP_set_same _ _ _ _ (freeBuffer E) hi
      have hgd : (st.buffers.getD i (freeBuffer E)) = st.bufAt i := rfl
      rw [hgd]
      simp [hnf]
    have hc2 : st'.numActiveBuffers = st.numActiveBuffers := rfl
    rw [hc1, hc2]

theorem wf_holdBuffer {E : Type} {st : ArrayStore E} (hwf : WF st) {i : Nat}
    (hi : i < st.buffers.length)
    (hact : ∀ t, t ≤ st.maxSmallArraySize → st.activeBufferId t ≠ i) :
    WF (st.holdBufferOp i) := by
  set st' := st.holdBufferOp i with hst'
  have hbufI : st'.bufAt i = { st.bufAt i with state := BufState.hold } :=
    holdBufferOp_bufAt_self st hi
  have hbufO : ∀ j, j ≠ i → st'.bufAt j = st.bufAt j := fun j hj =>
    holdBufferOp_bufAt_ne st (Ne.symm hj)
  have hlen : st'.buffers.length = st.buffers.length := holdBufferOp_blen st i
  have e1 : st'.offsetBits = st.offsetBits := rfl
  have e2 : st'.maxSmallArraySize = st.maxSmallArraySize := rfl
  have e3 : st'.maxClusters = st.maxClusters := rfl
  refine ⟨?_, ?_, ?_, ?_, ?_, ?_, ?_, ?_, ?_, ?_⟩
  · rw [e1]; exact wf_obits hwf
  · rw [e1]; exact wf_obits_le hwf
  · rw [e3]; exact wf_mc hwf
  · rw [hlen, e1]; exact wf_blen hwf
  · show st.activeBuffers.length = st.maxSmallArraySize + 1
    exact wf_alen hwf
  · intro j hj
    rw [hlen] at hj
    by_cases hc : j = i
    · rw [hc, hbufI, e1, e2]
      exact bufferWF_setState (wf_buffer hwf i hi) (by decide)
    · rw [hbufO _ hc, e1, e2]
      exact wf_buffer hwf j hj
  · intro t2 ht2
    rw [e2] at ht2
    have hsame : st'.activeBufferId t2 = st.activeBufferId t2 := rfl
    obtain ⟨l1, l2, l3⟩ := wf_active hwf t2 ht2
    rw [hsame, hlen, hbufO _ (hact t2 ht2)]
    exact ⟨l1, l2, l3⟩
  · by_cases hc : (0 : Nat) = i
    · rw [← hc] at hbufI
      rw [hbufI]
      exact (wf_buf0 hwf).1
    · rw [hbufO _ hc]
      exact (wf_buf0 hwf).1
  · by_cases hc : (0 : Nat) = i
    · rw [← hc] at hbufI
      rw [hbufI]
      simp
    · rw [hbufO _ hc]
      exact (wf_buf0 hwf).2.1
  · by_cases hc : (0 : Nat) = i
    · rw [← hc] at hbufI
      rw [hbufI]
      exact (wf_buf0 hwf).2.2
    · rw [hbufO _ hc]
      exact (wf_buf0 hwf).2.2

/-!  A live ref always reads a non-empty array. -/

theorem getD_mem {α : Type} :
    ∀ (l : List α) (i : Nat) (d : α), i < l.length → l.getD i d ∈ l
  | x :: tl, 0, d, _ => by rw [List.getD_cons_zero]; exact List.mem_cons_self x tl
  | x :: tl, i + 1, d, h => by
      rw [List.getD_cons_succ]
      exact List.mem_cons_of_mem x (getD_mem tl i d (by simpa using h))

theorem target_lt {E : Type} {st : ArrayStore E} {i : Nat}
    (h : (st.bufAt i).state ≠ BufState.free) : i < st.buffers.length := by
  by_contra hcon
  rw [bufAt_out st (by omega)] at h
  exact h rfl

theorem bufIdOf_zero_off {E : Type} {st : ArrayStore E} {r : Nat} (hr0 : r ≠ 0)
    (hb : st.bufIdOf r = 0) : st.offOf r ≠ 0 := by
  unfold ArrayStore.bufIdOf refBufferId at hb
  unfold ArrayStore.offOf refOffset
  have hpos : 0 < 2 ^ st.offsetBits := Nat.pos_pow_of_pos _ (by omega)
  have hlt : r < 2 ^ st.offsetBits := by
    rcases Nat.lt_or_ge r (2 ^ st.offsetBits) with h | h
    · exact h
    · exact absurd hb (by
        have := Nat.div_le_div_right (c := 2 ^ st.offsetBits) h
        rw [Nat.div_self hpos] at this
        omega)
  rw [Nat.mod_eq_of_lt hlt]
  exact hr0

theorem get_live_ne_nil {E : Type} {st : ArrayStore E} {r : Nat}
    (hwf : WF st) (hlv : st.refLive r) : st.get r ≠ [] := by
  obtain ⟨hr0, hlt, hrs, hrl⟩ := hlv
  by_cases hT : (st.bufAt (st.bufIdOf r)).typeId ≠ 0
  · rw [get_eval_small hr0 hT]
    have hb := hrs hT
    intro hnil
    have hlen := congrArg List.length hnil
    rw [List.length_take, List.length_drop] at hlen
    have hdist : (st.offOf r + 1) * (st.bufAt (st.bufIdOf r)).typeId =
        st.offOf r * (st.bufAt (st.bufIdOf r)).typeId +
          (st.bufAt (st.bufIdOf r)).typeId := by ring
    simp only [List.length_nil] at hlen
    have ht1 : 1 ≤ (st.bufAt (st.bufIdOf r)).typeId := by omega
    omega
  · have hT' : (st.bufAt (st.bufIdOf r)).typeId = 0 := by omega
    rw [get_eval_large hr0 hT']
    apply bw_nonempty (wf_buffer hwf _ hlt) hT' _ (hrl hT')
    by_cases hb0 : st.bufIdOf r = 0
    · exact Or.inl (bufIdOf_zero_off hr0 hb0)
    · exact Or.inr hb0

/-!  The compaction loop. -/

theorem compactRefs_spec {E : Type} [Inhabited E] {target : Nat} :
    ∀ (refs : List Nat) (st : ArrayStore E) (refs' : List Nat)
      (st' : ArrayStore E),
      WF st →
      (st.bufAt target).state ≠ BufState.free →
      (∀ t, t ≤ st.maxSmallArraySize → st.activeBufferId t ≠ target) →
      (∀ r2, r2 ∈ refs → r2 ≠ 0 → st.bufIdOf r2 = target → st.refLive r2) →
      compactRefs target st refs = some (refs', st') →
      WF st' ∧ Preserves st st' ∧
      (st'.bufAt target).state ≠ BufState.free ∧
      (∀ t, t ≤ st'.maxSmallArraySize → st'.activeBufferId t ≠ target) ∧
      refs'.length = refs.length ∧
      (∀ i, i < refs.length →
        (¬(refs.getD i 0 ≠ 0 ∧ st.bufIdOf (refs.getD i 0) = target) →
          refs'.getD i 0 = refs.getD i 0) ∧
        ((refs.getD i 0 ≠ 0 ∧ st.bufIdOf (refs.getD i 0) = target) →
          st'.bufIdOf (refs'.getD i 0) ≠ target ∧
          st'.get (refs'.getD i 0) = st.get (refs.getD i 0))) := by
  intro refs
  induction refs with
  | nil =>
      intro st refs' st' hwf hnf hact hlv h
      unfold compactRefs at h
      simp only [Option.some.injEq, Prod.mk.injEq] at h
      obtain ⟨h1, h2⟩ := h
      subst h1
      subst h2
      exact ⟨hwf, preserves_refl st, hnf, hact, rfl, fun i hi => by simp at hi⟩
  | cons r rest ih =>
      intro st refs' st' hwf hnf hact hlv h
      have htlt : target < st.buffers.length := target_lt hnf
      unfold compactRefs at h
      by_cases hhit : r ≠ 0 ∧ st.bufIdOf r = target
      · rw [if_pos hhit] at h
        cases hAdd : st.add (st.get r) with
        | none => rw [hAdd] at h; cases h
        | some pr =>
        obtain ⟨r1, stA⟩ := pr
        simp only [hAdd] at h
        cases hRec : compactRefs target stA rest with
        | none => simp only [hRec] at h; cases h
        | some pr2 =>
        obtain ⟨rest', st2⟩ := pr2
        simp only [hRec, Option.some.injEq, Prod.mk.injEq] at h
        obtain ⟨hrfs, hst⟩ := h
        subst hrfs
        subst hst
        have hrlv : st.refLive r := hlv r (List.mem_cons_self r rest) hhit.1 hhit.2
        have hlen_pos : 0 < (st.get r).length := by
          have := get_live_ne_nil hwf hrlv
          cases hgr : st.get r with
          | nil => exact absurd hgr this
          | cons x xs => simp [hgr]
        obtain ⟨hwfA, hpresA, hgenA, hgetA, hliveA, c, hc_le, hbidA⟩ :=
          add_spec hwf hlen_pos hAdd
        have hbid_eq : ∀ r2, stA.bufIdOf r2 = st.bufIdOf r2 := by
          intro r2
          unfold ArrayStore.bufIdOf
          rw [hpresA.obits]
        have hnfA : (stA.bufAt target).state ≠ BufState.free :=
          hpresA.nonfree target htlt hnf
        have hactA : ∀ t, t ≤ stA.maxSmallArraySize →
            stA.activeBufferId t ≠ target := by
          intro t ht
          rw [hpresA.msmall] at ht
          rcases hpresA.actives t ht with he | hfree
          · rw [he]
            exact hact t ht
          · intro hcon
            rw [hcon] at hfree
            exact hnf hfree
        have hlvA : ∀ r2, r2 ∈ rest → r2 ≠ 0 → stA.bufIdOf r2 = target →
            stA.refLive r2 := by
          intro r2 hm hr2 hb
          rw [hbid_eq] at hb
          exact (hpresA.live r2 (hlv r2 (List.mem_cons_of_mem r hm) hr2 hb)).1
        obtain ⟨hwf2, hpres2, hnf2, hact2, hlen2, hidx2⟩ :=
          ih stA rest' st2 hwfA hnfA hactA hlvA hRec
        have hbid_eq2 : ∀ r2, st2.bufIdOf r2 = stA.bufIdOf r2 := by
          intro r2
          unfold ArrayStore.bufIdOf
          rw [hpres2.obits]
        have hr1_target : stA.bufIdOf r1 ≠ target := by
          rw [hbidA]
          rcases hpresA.actives c hc_le with he | hfree
          · rw [he]
            exact hact c hc_le
          · intro hcon
            rw [hcon] at hfree
            exact hnf hfree
        refine ⟨hwf2, preserves_trans hpresA hpres2, hnf2, hact2, ?_, ?_⟩
        · simp [hlen2]
        · intro i hi
          cases i with
          | zero =>
              rw [List.getD_cons_zero, List.getD_cons_zero]
              constructor
              · intro hn
                exact absurd hhit hn
              · intro _
                constructor
                · rw [hbid_eq2]
                  exact hr1_target
                · rw [(hpres2.live r1 hliveA).2, hgetA]
          | succ i =>
              rw [List.getD_cons_succ, List.getD_cons_succ]
              have hi' : i < rest.length := by simpa using hi
              obtain ⟨hmiss, hhit2⟩ := hidx2 i hi'
              constructor
              · intro hn
                apply hmiss
                rw [hbid_eq]
                exact hn
              · intro hg
                have hgA : rest.getD i 0 ≠ 0 ∧
                    stA.bufIdOf (rest.getD i 0) = target := by
                  rw [hbid_eq]
                  exact hg
                obtain ⟨hb2, hget2⟩ := hhit2 hgA
                refine ⟨hb2, ?_⟩
                rw [hget2]
                have hlv2 : st.refLive (rest.getD i 0) :=
                  hlv _ (List.mem_cons_of_mem r (getD_mem rest i 0 hi'))
                    hg.1 hg.2
                exact (hpresA.live _ hlv2).2
      · rw [if_neg hhit] at h
        cases hRec : compactRefs target st rest with
        | none => simp only [hRec] at h; cases h
        | some pr2 =>
        obtain ⟨rest', st2⟩ := pr2
        simp only [hRec, Option.some.injEq, Prod.mk.injEq] at h
        obtain ⟨hrfs, hst⟩ := h
        subst hrfs
        subst hst
        have hlv' : ∀ r2, r2 ∈ rest → r2 ≠ 0 → st.bufIdOf r2 = target →
            st.refLive r2 := fun r2 hm => hlv r2 (List.mem_cons_of_mem r hm)
        obtain ⟨hwf2, hpres2, hnf2, hact2, hlen2, hidx2⟩ :=
          ih st rest' st2 hwf hnf hact hlv' hRec
        refine ⟨hwf2, hpres2, hnf2, hact2, ?_, ?_⟩
        · simp [hlen2]
        · intro i hi
          cases i with
          | zero =>
              rw [List.getD_cons_zero, List.getD_cons_zero]
              exact ⟨fun _ => rfl, fun hg => absurd hg hhit⟩
          | succ i =>
              rw [List.getD_cons_succ, List.getD_cons_succ]
              exact hidx2 i (by simpa using hi)

/-- The compaction loop preserves well-formedness and all live refs even when
some refs of the slice are stale (their reads may be empty, in which case
the inner add stores nothing). -/
theorem compactRefs_preserves {E : Type} [Inhabited E] {target : Nat} :
    ∀ (refs : List Nat) (st : ArrayStore E) (refs' : List Nat)
      (st' : ArrayStore E),
      WF st →
      (st.bufAt target).state ≠ BufState.free →
      (∀ t, t ≤ st.maxSmallArraySize → st.activeBufferId t ≠ target) →
      compactRefs target st refs = some (refs', st') →
      WF st' ∧ Preserves st st' ∧
      (st'.bufAt target).state ≠ BufState.free ∧
      (∀ t, t ≤ st'.maxSmallArraySize → st'.activeBufferId t ≠ target) := by
  intro refs
  induction refs with
  | nil =>
      intro st refs' st' hwf hnf hact h
      unfold compactRefs at h
      simp only [Option.some.injEq, Prod.mk.injEq] at h
      obtain ⟨h1, h2⟩ := h
      subst h1
      subst h2
      exact ⟨hwf, preserves_refl st, hnf, hact⟩
  | cons r rest ih =>
      intro st refs' st' hwf hnf hact h
      have htlt : target < st.buffers.length := target_lt hnf
      unfold compactRefs at h
      by_cases hhit : r ≠ 0 ∧ st.bufIdOf r = target
      · rw [if_pos hhit] at h
        cases hAdd : st.add (st.get r) with
        | none => rw [hAdd] at h; cases h
        | some pr =>
        obtain ⟨r1, stA⟩ := pr
        simp only [hAdd] at h
        cases hRec : compactRefs target stA rest with
        | none => simp only [hRec] at h; cases h
        | some pr2 =>
        obtain ⟨rest', st2⟩ := pr2
        simp only [hRec, Option.some.injEq, Prod.mk.injEq] at h
        obtain ⟨hrfs, hst⟩ := h
        subst hrfs
        subst hst
        by_cases hempty : (st.get r).length = 0
        · -- the inner add stored nothing and left the state unchanged
          have hstA : stA = st := by
            unfold ArrayStore.add at hAdd
            rw [if_pos hempty] at hAdd
            simp only [Option.some.injEq, Prod.mk.injEq] at hAdd
            exact hAdd.2.symm
          subst hstA
          exact ih _ rest' st2 hwf hnf hact hRec
        · obtain ⟨hwfA, hpresA, _, _, _, _⟩ := add_spec hwf (by omega) hAdd
          have hnfA : (stA.bufAt target).state ≠ BufState.free :=
            hpresA.nonfree target htlt hnf
          have hactA : ∀ t, t ≤ stA.maxSmallArraySize →
              stA.activeBufferId t ≠ target := by
            intro t ht
            rw [hpresA.msmall] at ht
            rcases hpresA.actives t ht with he | hfree
            · rw [he]
              exact hact t ht
            · intro hcon
              rw [hcon] at hfree
              exact hnf hfree
          obtain ⟨hwf2, hpres2, hnf2, hact2⟩ :=
            ih stA rest' st2 hwfA hnfA hactA hRec
          exact ⟨hwf2, preserves_trans hpresA hpres2, hnf2, hact2⟩
      · rw [if_neg hhit] at h
        cases hRec : compactRefs target st rest with
        | none => simp only [hRec] at h; cases h
        | some pr2 =>
        obtain ⟨rest', st2⟩ := pr2
        simp only [hRec, Option.some.injEq, Prod.mk.injEq] at h
        obtain ⟨hrfs, hst⟩ := h
        subst hrfs
        subst hst
        exact ih st rest' st2 hwf hnf hact hRec

/-!  Every writer step preserves well-formedness and all live refs. -/

theorem step_spec {E : Type} [Inhabited E] {st st' : ArrayStore E}
    (hwf : WF st) (h : Step st st') : WF st' ∧ Preserves st st' := by
  cases h with
  | add a r st2 hAdd =>
      by_cases ha : a.length = 0
      · unfold ArrayStore.add at hAdd
        rw [if_pos ha] at hAdd
        simp only [Option.some.injEq, Prod.mk.injEq] at hAdd
        obtain ⟨_, hst⟩ := hAdd
        subst hst
        exact ⟨hwf, preserves_refl st⟩
      · obtain ⟨hwf', hpres, _, _, _, _⟩ := add_spec hwf (by omega) hAdd
        exact ⟨hwf', hpres⟩
  | remove r =>
      exact ⟨wf_remove hwf r, preserves_remove st r⟩
  | compact target refs refs' st1 hnf hact hcomp =>
      obtain ⟨hwf1, hpres1, hnf1, hact1⟩ :=
        compactRefs_preserves refs st refs' st1 hwf hnf hact hcomp
      have htlt1 : target < st1.buffers.length := target_lt hnf1
      exact ⟨wf_holdBuffer hwf1 htlt1 hact1,
             preserves_trans hpres1 (preserves_holdBuffer st1 htlt1 hnf1)⟩

theorem steps_spec {E : Type} [Inhabited E] {st st' : ArrayStore E}
    (hwf : WF st) (h : Steps st st') : WF st' ∧ Preserves st st' := by
  unfold Steps at h
  induction h with
  | refl => exact ⟨hwf, preserves_refl st⟩
  | tail _ hstep ih =>
      obtain ⟨hwfm, hpresm⟩ := ih
      obtain ⟨hwf2, hpres2⟩ := step_spec hwfm hstep
      exact ⟨hwf2, preserves_trans hpresm hpres2⟩

theorem wf_reachable {E : Type} [Inhabited E] {p : Params} {st : ArrayStore E}
    (hp : p.ok) (h : Reachable E p st) : WF st :=
  (steps_spec (wf_init p hp) h).1

theorem count_reachable {E : Type} [Inhabited E] {p : Params}
    {st : ArrayStore E} (hp : p.ok) (h : Reachable E p st) :
    countNonFree st.buffers = st.numActiveBuffers := by
  obtain ⟨_, hpres⟩ := steps_spec (wf_init p hp) h
  have h0 := count_init (E := E) p hp
  have hc := hpres.countA
  omega

/-- Structural case analysis of ensureBufferCapacity. -/
theorem ensure_cases {E : Type} [Inhabited E] {st st' : ArrayStore E} {t n : Nat}
    (h : st.ensureBufferCapacity t n = some st') :
    ((st.bufAt (st.activeBufferId t)).size + n ≤
        (st.bufAt (st.activeBufferId t)).capacity ∧ st' = st) ∨
    (∃ newId, findFreeBuffer st.buffers = some newId ∧
      st' = (st.holdBufferOp (st.activeBufferId t)).activateBuffer t newId) := by
  unfold ArrayStore.ensureBufferCapacity at h
  by_cases hroom : (st.bufAt (st.activeBufferId t)).size + n ≤
      (st.bufAt (st.activeBufferId t)).capacity
  · rw [if_pos hroom] at h
    cases h
    exact Or.inl ⟨hroom, rfl⟩
  · rw [if_neg hroom] at h
    cases hF : findFreeBuffer st.buffers with
    | none => rw [hF] at h; cases h
    | some newId =>
        rw [hF] at h
        cases h
        exact Or.inr ⟨newId, rfl, rfl⟩

/-!  Concrete stores used by the witnesses: a `u32` store with
`OFFSET_BITS = 30`, `max_small_array_size = 2`, `max_clusters = 4`. -/

def pW : Params := ⟨30, 4, 2, 4⟩

def stInit : ArrayStore Nat := initStore Nat pW

/-- Result of an add, defaulting to the invalid ref on failure. -/
def addResult (st : ArrayStore Nat) (a : List Nat) : Nat × ArrayStore Nat :=
  (st.add a).getD (0, st)

def c2Ref : Nat := (addResult stInit [5, 6]).1

def c2St1 : ArrayStore Nat := (addResult stInit [5, 6]).2

def c2St2 : ArrayStore Nat := (addResult c2St1 [7, 7, 7]).2

def c2St3 : ArrayStore Nat := c2St2.remove (addResult c2St1 [7, 7, 7]).1

/-!  The claims. -/

/-- C1: Round-trip — for every non-empty array `a`, the view returned by
`get (add a)` is element-wise equal to `a`, on the small-class path
(`|a| ≤ max_small_array_size`) as well as on the large-array path. -/
theorem c1_roundtrip {E : Type} [Inhabited E] {st st' : ArrayStore E}
    {a : List E} {r : Nat} (hwf : WF st) (ha : 0 < a.length)
    (h : st.add a = some (r, st')) : st'.get r = a :=
  (add_spec hwf ha h).2.2.2.1

theorem c1_roundtrip_witness :
    (WF stInit ∧ 0 < ([5, 6] : List Nat).length ∧
      stInit.add [5, 6] = some (c2Ref, c2St1) ∧ c2St1.get c2Ref = [5, 6]) ∧
    (0 < ([7, 8, 9] : List Nat).length ∧
      stInit.add [7, 8, 9] = some ((addResult stInit [7, 8, 9]).1,
        (addResult stInit [7, 8, 9]).2) ∧
      (addResult stInit [7, 8, 9]).2.get (addResult stInit [7, 8, 9]).1 =
        [7, 8, 9]) :=
  ⟨⟨by decide, by decide, by decide,
    @c1_roundtrip Nat _ stInit c2St1 [5, 6] c2Ref
      (by decide) (by decide) (by decide)⟩,
   ⟨by decide, by decide,
    @c1_roundtrip Nat _ stInit (addResult stInit [7, 8, 9]).2
      [7, 8, 9] (addResult stInit [7, 8, 9]).1
      (by decide) (by decide) (by decide)⟩⟩

/-- C2: Stability under reads — a ref obtained from add keeps reading exactly
the values passed to that add across any interleaved sequence of add,
remove and compact steps (`Steps` contains no transferHoldLists or
trimHoldLists call; appends only write past the used count and never
overwrite earlier slots). -/
theorem c2_stability {E : Type} [Inhabited E] {st0 st1 st2 : ArrayStore E}
    {a : List E} {r : Nat} (hwf : WF st0) (ha : 0 < a.length)
    (hadd : st0.add a = some (r, st1)) (hsteps : Steps st1 st2) :
    st2.get r = a := by
  obtain ⟨hwf1, _, _, hget, hlive, _⟩ := add_spec hwf ha hadd
  obtain ⟨_, hpres⟩ := steps_spec hwf1 hsteps
  rw [(hpres.live r hlive).2, hget]

theorem c2_stability_witness :
    WF stInit ∧ 0 < ([5, 6] : List Nat).length ∧
    stInit.add [5, 6] = some (c2Ref, c2St1) ∧ Steps c2St1 c2St3 ∧
    c2St3.get c2Ref = [5, 6] := by
  have hsteps : Steps c2St1 c2St3 :=
    Relation.ReflTransGen.tail
      (Relation.ReflTransGen.single
        (Step.add c2St1 [7, 7, 7] (addResult c2St1 [7, 7, 7]).1 c2St2
          (by decide)))
      (Step.remove c2St2 (addResult c2St1 [7, 7, 7]).1)
  exact ⟨by decide, by decide, by decide, hsteps,
         @c2_stability Nat _ stInit c2St1 c2St3
           [5, 6] c2Ref (by decide) (by decide) (by decide)
           hsteps⟩

/-- C3: Size classing — the ref returned by add decodes to a buffer whose
type id is `|a|` when `0 < |a| ≤ max_small_array_size` and `0` (the
large-array class) when `|a| > max_small_array_size`; in particular with
`max_small_array_size = 0` every non-empty array lands in the large
class. -/
theorem c3_size_classing {E : Type} [Inhabited E] {st st' : ArrayStore E}
    {a : List E} {r : Nat} (hwf : WF st) (ha : 0 < a.length)
    (h : st.add a = some (r, st')) :
    (a.length ≤ st.maxSmallArraySize →
      (st'.bufAt (st'.bufIdOf r)).typeId = a.length) ∧
    (st.maxSmallArraySize < a.length →
      (st'.bufAt (st'.bufIdOf r)).typeId = 0) ∧
    (st.maxSmallArraySize = 0 →
      (st'.bufAt (st'.bufIdOf r)).typeId = 0) := by
  have hmain : (a.length ≤ st.maxSmallArraySize →
      (st'.bufAt (st'.bufIdOf r)).typeId = a.length) ∧
      (st.maxSmallArraySize < a.length →
        (st'.bufAt (st'.bufIdOf r)).typeId = 0) := by
    constructor
    · intro hle
      unfold ArrayStore.add at h
      rw [if_neg (by omega), if_pos hle] at h
      obtain ⟨st1, _, _, _, _, _, _, hTy, _⟩ := addSmall_spec hwf ha hle h
      exact hTy
    · intro hgt
      unfold ArrayStore.add at h
      rw [if_neg (by omega), if_neg (by omega)] at h
      obtain ⟨st1, _, _, _, _, _, hTy, _⟩ := addLarge_spec hwf ha h
      exact hTy
  exact ⟨hmain.1, hmain.2, fun h0 => hmain.2 (by omega)⟩

def pW0 : Params := ⟨30, 4, 0, 4⟩

def stInit0 : ArrayStore Nat := initStore Nat pW0

theorem c3_size_classing_witness :
    (WF stInit ∧ 0 < ([5, 6] : List Nat).length ∧
      stInit.add [5, 6] = some (c2Ref, c2St1) ∧
      ([5, 6] : List Nat).length ≤ stInit.maxSmallArraySize ∧
      (c2St1.bufAt (c2St1.bufIdOf c2Ref)).typeId = 2) ∧
    (stInit.maxSmallArraySize < ([7, 8, 9] : List Nat).length ∧
      ((addResult stInit [7, 8, 9]).2.bufAt
        ((addResult stInit [7, 8, 9]).2.bufIdOf
          (addResult stInit [7, 8, 9]).1)).typeId = 0) ∧
    (WF stInit0 ∧ stInit0.maxSmallArraySize = 0 ∧
      ((addResult stInit0 [1]).2.bufAt
        ((addResult stInit0 [1]).2.bufIdOf
          (addResult stInit0 [1]).1)).typeId = 0) :=
  ⟨⟨by decide, by decide, by decide, by decide,
    (@c3_size_classing Nat _ stInit c2St1 [5, 6] c2Ref
      (by decide) (by decide) (by decide)).1 (by decide)⟩,
   ⟨by decide,
    (@c3_size_classing Nat _ stInit (addResult stInit [7, 8, 9]).2
      [7, 8, 9] (addResult stInit [7, 8, 9]).1
      (by decide) (by decide) (by decide)).2.1 (by decide)⟩,
   ⟨by decide, by decide,
    (@c3_size_classing Nat _ stInit0 (addResult stInit0 [1]).2
      [1] (addResult stInit0 [1]).1
      (by decide) (by decide) (by decide)).2.2 (by decide)⟩⟩

/-- C4: Ref encoding of add — on the small path the ref encodes the active
buffer of class `|a|` with offset `used_before / |a|` in array-slot
units; on the large path the offset is `used_before` in record units and
`sizeof(element) * |a|` bytes are attributed to the buffer's extra-bytes
accounting. -/
theorem c4_ref_encoding {E : Type} [Inhabited E] {st st' : ArrayStore E}
    {a : List E} {r : Nat} (hwf : WF st) (ha : 0 < a.length)
    (h : st.add a = some (r, st')) :
    (a.length ≤ st.maxSmallArraySize →
      ∃ st1, st.ensureBufferCapacity (getTypeId a.length) a.length = some st1 ∧
        r = refEncode st1.offsetBits
              ((st1.bufAt (st1.activeBufferId a.length)).size / a.length)
              (st1.activeBufferId a.length) ∧
        st'.bufIdOf r = st1.activeBufferId a.length ∧
        st'.offOf r =
          (st1.bufAt (st1.activeBufferId a.length)).size / a.length) ∧
    (st.maxSmallArraySize < a.length →
      ∃ st1, st.ensureBufferCapacity 0 1 = some st1 ∧
        r = refEncode st1.offsetBits
              (st1.bufAt (st1.activeBufferId 0)).size
              (st1.activeBufferId 0) ∧
        st'.offOf r = (st1.bufAt (st1.activeBufferId 0)).size ∧
        (st'.bufAt (st'.bufIdOf r)).extraBytes =
          (st1.bufAt (st1.activeBufferId 0)).extraBytes +
            st1.entrySize * a.length) := by
  constructor
  · intro hle
    unfold ArrayStore.add at h
    rw [if_neg (by omega), if_pos hle] at h
    obtain ⟨st1, hE, hr, _, hbid, hoff, _, _, _⟩ := addSmall_spec hwf ha hle h
    exact ⟨st1, hE, hr, hbid, hoff⟩
  · intro hgt
    unfold ArrayStore.add at h
    rw [if_neg (by omega), if_neg (by omega)] at h
    obtain ⟨st1, hE, hr, _, _, hoff, _, hextra, _⟩ := addLarge_spec hwf ha h
    exact ⟨st1, hE, hr, hoff, hextra⟩

theorem c4_ref_encoding_witness :
    WF stInit ∧ 0 < ([7, 8, 9] : List Nat).length ∧
    stInit.add [7, 8, 9] = some ((addResult stInit [7, 8, 9]).1,
      (addResult stInit [7, 8, 9]).2) ∧
    stInit.maxSmallArraySize < ([7, 8, 9] : List Nat).length ∧
    (∃ st1, stInit.ensureBufferCapacity 0 1 = some st1 ∧
      (addResult stInit [7, 8, 9]).1 =
        refEncode st1.offsetBits (st1.bufAt (st1.activeBufferId 0)).size
          (st1.activeBufferId 0) ∧
      (addResult stInit [7, 8, 9]).2.offOf (addResult stInit [7, 8, 9]).1 =
        (st1.bufAt (st1.activeBufferId 0)).size ∧
      ((addResult stInit [7, 8, 9]).2.bufAt
          ((addResult stInit [7, 8, 9]).2.bufIdOf
            (addResult stInit [7, 8, 9]).1)).extraBytes =
        (st1.bufAt (st1.activeBufferId 0)).extraBytes +
          st1.entrySize * ([7, 8, 9] : List Nat).length) :=
  ⟨by decide, by decide, by decide, by decide,
   (@c4_ref_encoding Nat _ stInit (addResult stInit [7, 8, 9]).2
     [7, 8, 9] (addResult stInit [7, 8, 9]).1
     (by decide) (by decide) (by decide)).2 (by decide)⟩

/-- C5: Empty and invalid handling — add of the empty array returns the
invalid (all-zero) ref and leaves the store unchanged, get of the invalid
ref returns the empty view, and remove of the invalid ref is a no-op on
the entire store state. -/
theorem c5_empty_invalid {E : Type} [Inhabited E] (st : ArrayStore E) :
    st.add [] = some (0, st) ∧ st.get 0 = [] ∧ st.remove 0 = st := by
  refine ⟨?_, ?_, remove_invalid st⟩
  · simp [ArrayStore.add]
  · simp [ArrayStore.get]

theorem bufIdOf_congr {E : Type} {st st' : ArrayStore E} (r : Nat)
    (h : st'.offsetBits = st.offsetBits) : st'.bufIdOf r = st.bufIdOf r := by
  unfold ArrayStore.bufIdOf
  rw [h]

theorem offOf_congr {E : Type} {st st' : ArrayStore E} (r : Nat)
    (h : st'.offsetBits = st.offsetBits) : st'.offOf r = st.offOf r := by
  unfold ArrayStore.offOf
  rw [h]

theorem c5_empty_invalid_witness :
    stInit.add [] = some (0, stInit) ∧ stInit.get 0 = [] ∧
    stInit.remove 0 = stInit :=
  c5_empty_invalid stInit

/-- C6: Compaction rewrite — CompactionContext::compact leaves invalid refs
and refs of other buffers unchanged, and replaces each ref into the
compacted buffer by a fresh ref that decodes to a different buffer and
reads element-wise equal to the pre-compaction contents. -/
theorem c6_compaction {E : Type} [Inhabited E] {target : Nat}
    {refs refs' : List Nat} {st st' : ArrayStore E}
    (hwf : WF st)
    (hnf : (st.bufAt target).state ≠ BufState.free)
    (hact : ∀ t, t ≤ st.maxSmallArraySize → st.activeBufferId t ≠ target)
    (hlv : ∀ r2, r2 ∈ refs → r2 ≠ 0 → st.bufIdOf r2 = target → st.refLive r2)
    (h : compactRefs target st refs = some (refs', st')) :
    refs'.length = refs.length ∧
    ∀ i, i < refs.length →
      (¬(refs.getD i 0 ≠ 0 ∧ st.bufIdOf (refs.getD i 0) = target) →
        refs'.getD i 0 = refs.getD i 0) ∧
      ((refs.getD i 0 ≠ 0 ∧ st.bufIdOf (refs.getD i 0) = target) →
        st'.bufIdOf (refs'.getD i 0) ≠ target ∧
        st'.get (refs'.getD i 0) = st.get (refs.getD i 0)) := by
  obtain ⟨_, _, _, _, hlen, hidx⟩ :=
    compactRefs_spec refs st refs' st' hwf hnf hact hlv h
  exact ⟨hlen, hidx⟩

def c6A : ArrayStore Nat := (addResult stInit [1, 2]).2

def c6B : ArrayStore Nat := (addResult c6A [3, 4]).2

def c6C : ArrayStore Nat := (addResult c6B [5, 6]).2

def c6D : ArrayStore Nat := (addResult c6C [7, 8]).2

def c6E : ArrayStore Nat := (addResult c6D [9, 9]).2

def c6R1 : Nat := (addResult stInit [1, 2]).1

def c6R2 : Nat := (addResult c6A [3, 4]).1

def c6Out : List Nat × ArrayStore Nat :=
  (compactRefs 2 c6E [c6R1, c6R2]).getD ([], c6E)

theorem c6_compaction_witness :
    c6Out.1.length = ([c6R1, c6R2] : List Nat).length ∧
    c6Out.2.bufIdOf (c6Out.1.getD 0 0) ≠ 2 ∧
    c6Out.2.get (c6Out.1.getD 0 0) = c6E.get c6R1 ∧
    c6Out.2.bufIdOf (c6Out.1.getD 1 0) ≠ 2 ∧
    c6Out.2.get (c6Out.1.getD 1 0) = c6E.get c6R2 := by
  have hc := @c6_compaction Nat _ 2 [c6R1, c6R2]
      c6Out.1 c6E c6Out.2
      (by decide) (by decide) (by decide) (by decide) (by decide)
  refine ⟨hc.1, ?_, ?_, ?_, ?_⟩
  · exact ((hc.2 0 (by decide)).2 (by decide)).1
  · exact ((hc.2 0 (by decide)).2 (by decide)).2
  · exact ((hc.2 1 (by decide)).2 (by decide)).1
  · exact ((hc.2 1 (by decide)).2 (by decide)).2

/-- C7: Remove of a valid ref appends exactly one hold-list entry stamped
with the current generation — carrying the array size for a small-class
ref, or one record plus `sizeof(element) * stored_length` extra bytes for
a large-class ref — and leaves every buffer untouched. -/
theorem c7_remove_hold {E : Type} {st : ArrayStore E} {r : Nat} (hr : r ≠ 0) :
    st.remove r =
      { st with holdList := st.holdList ++ [st.removeHoldEntry r] } ∧
    ((st.bufAt (st.bufIdOf r)).typeId ≠ 0 →
      st.removeHoldEntry r = HoldEntry.elem st.curGen r
        (getArraySize (st.bufAt (st.bufIdOf r)).typeId) 0) ∧
    ((st.bufAt (st.bufIdOf r)).typeId = 0 →
      st.removeHoldEntry r = HoldEntry.elem st.curGen r 1
        (st.entrySize * (st.get r).length)) ∧
    (st.remove r).buffers = st.buffers :=
  ⟨remove_valid st hr, fun h => removeHoldEntry_small h,
   fun h => removeHoldEntry_large h, by rw [remove_valid st hr]⟩

def c9St : ArrayStore Nat := (addResult stInit [7, 8, 9]).2

theorem c7_remove_hold_witness :
    (c2Ref ≠ 0 ∧
      c2St1.remove c2Ref =
        { c2St1 with
            holdList := c2St1.holdList ++ [c2St1.removeHoldEntry c2Ref] } ∧
      (c2St1.remove c2Ref).buffers = c2St1.buffers) ∧
    ((1 : Nat) ≠ 0 ∧
      c9St.removeHoldEntry 1 =
        HoldEntry.elem c9St.curGen 1 1 (c9St.entrySize * (c9St.get 1).length)) := by
  have h1 := @c7_remove_hold Nat c2St1 c2Ref (by decide)
  have h2 := @c7_remove_hold Nat c9St 1 (by decide)
  exact ⟨⟨by decide, h1.1, h1.2.2.2⟩, ⟨by decide, h2.2.2.1 (by decide)⟩⟩

/-- C8: Address-space accounting — at every reachable store state the `used`
component of addressSpaceUsage equals the number of buffers not in the
Free state and the total component equals `2^(32-OFFSET_BITS)`, the
number of possible buffer ids of the ref type. -/
theorem c8_address_space {E : Type} [Inhabited E] {p : Params}
    {st : ArrayStore E} (hp : p.ok) (h : Reachable E p st) :
    st.addressSpaceUsage.1 = countNonFree st.buffers ∧
    st.addressSpaceUsage.2 = 2 ^ (32 - st.offsetBits) :=
  ⟨(count_reachable hp h).symm, rfl⟩

theorem c8_address_space_witness :
    Params.ok pW ∧ Reachable Nat pW c2St1 ∧
    c2St1.addressSpaceUsage.1 = countNonFree c2St1.buffers ∧
    c2St1.addressSpaceUsage.2 = 2 ^ (32 - c2St1.offsetBits) := by
  have hreach : Reachable Nat pW c2St1 :=
    Relation.ReflTransGen.single
      (Step.add stInit [5, 6] c2Ref c2St1 (by decide))
  have hc := c8_address_space (by decide) hreach
  exact ⟨by decide, hreach, hc.1, hc.2⟩

/-- C9: Every large-array descriptor reachable through a valid, live ref of
the large-array class is non-empty, so the `size() > 0` assertion of
getLargeArray cannot fire. -/
theorem c9_large_nonempty {E : Type} [Inhabited E] {p : Params}
    {st : ArrayStore E} {r : Nat} (hp : p.ok) (h : Reachable E p st)
    (hlv : st.refLive r)
    (hT : (st.bufAt (st.bufIdOf r)).typeId = 0) :
    0 < ((st.bufAt (st.bufIdOf r)).largeArrays.getD (st.offOf r) []).length := by
  have hwf := wf_reachable hp h
  have hne : (st.bufAt (st.bufIdOf r)).largeArrays.getD (st.offOf r) [] ≠ [] := by
    apply bw_nonempty (wf_buffer hwf _ hlv.2.1) hT _ (hlv.2.2.2 hT)
    by_cases hb0 : st.bufIdOf r = 0
    · exact Or.inl (bufIdOf_zero_off hlv.1 hb0)
    · exact Or.inr hb0
  exact List.length_pos.mpr hne

theorem c9_large_nonempty_witness :
    Params.ok pW ∧ Reachable Nat pW c9St ∧ c9St.refLive 1 ∧
    (c9St.bufAt (c9St.bufIdOf 1)).typeId = 0 ∧
    0 < ((c9St.bufAt (c9St.bufIdOf 1)).largeArrays.getD (c9St.offOf 1) []).length := by
  have hreach : Reachable Nat pW c9St :=
    Relation.ReflTransGen.single
      (Step.add stInit [7, 8, 9] (addResult stInit [7, 8, 9]).1 c9St
        (by decide))
  exact ⟨by decide, hreach, by decide, by decide,
         @c9_large_nonempty Nat _ pW c9St 1 (by decide) hreach
           (by decide) (by decide)⟩

/-- C10: In every small-class buffer the used-element count is a multiple of
the class's array size; after a small add the decoded slot offset times
the array size recovers exactly the pre-add used count (the division in
addSmallArray is exact and the offset round-trips); and two successive
adds of same-size arrays that land in the same buffer return strictly
increasing offsets. -/
theorem c10_small_alignment {E : Type} [Inhabited E] {p : Params}
    {st : ArrayStore E} (hp : p.ok) (hre : Reachable E p st) :
    (∀ i, i < st.buffers.length → (st.bufAt i).typeId ≠ 0 →
      (st.bufAt i).size % (st.bufAt i).typeId = 0) ∧
    (∀ (a : List E) (r1 : Nat) (st1 : ArrayStore E),
      0 < a.length → a.length ≤ st.maxSmallArraySize →
      st.add a = some (r1, st1) →
      st1.offOf r1 * a.length + a.length =
        (st1.bufAt (st1.bufIdOf r1)).size) ∧
    (∀ (a b : List E) (r1 r2 : Nat) (st1 st2 : ArrayStore E),
      0 < a.length → a.length ≤ st.maxSmallArraySize → b.length = a.length →
      st.add a = some (r1, st1) → st1.add b = some (r2, st2) →
      st2.bufIdOf r1 = st2.bufIdOf r2 →
      st2.offOf r1 < st2.offOf r2) := by
  have hwf := wf_reachable hp hre
  refine ⟨?_, ?_, ?_⟩
  · intro i hi hT
    exact (bw_small (wf_buffer hwf i hi) hT).2
  · intro a r1 st1 ha hle hAdd
    unfold ArrayStore.add at hAdd
    rw [if_neg (by omega), if_pos hle] at hAdd
    obtain ⟨stM, _, _, _, hbid, hoff, hdvd, _, hsz, _⟩ :=
      addSmall_spec hwf ha hle hAdd
    rw [hoff, hsz, Nat.div_mul_cancel hdvd]
  · intro a b r1 r2 st1 st2 ha hle hab hAdd1 hAdd2 hsame
    unfold ArrayStore.add at hAdd1 hAdd2
    rw [if_neg (by omega), if_pos hle] at hAdd1
    obtain ⟨stM1, hE1, hr1, hst1eq, hbid1, hoff1, hdvd1, _, hsz1, hwf1,
            hpres1, _⟩ := addSmall_spec hwf ha hle hAdd1
    have hb : 0 < b.length := by omega
    have hle2 : b.length ≤ st1.maxSmallArraySize := by
      rw [hab, hpres1.msmall]
      exact hle
    rw [if_neg (by omega), if_pos hle2] at hAdd2
    obtain ⟨stM2, hE2, hr2, hst2eq, hbid2, hoff2, hdvd2, _, hsz2, hwf2,
            hpres2, _⟩ := addSmall_spec hwf1 hb hle2 hAdd2
    have hact1 : st1.activeBufferId a.length = stM1.activeBufferId a.length := by
      rw [hst1eq]
      rfl
    have hob21 : st2.offsetBits = st1.offsetBits := hpres2.obits
    rcases ensure_cases hE2 with ⟨hroom2, hMeq⟩ | ⟨newId, hFree, hMeq⟩
    · have hsz1' : (st1.bufAt (stM1.activeBufferId a.length)).size =
          (stM1.bufAt (stM1.activeBufferId a.length)).size + a.length :=
        hbid1 ▸ hsz1
      rw [hMeq, hab, hact1, hsz1', Nat.add_div_right _ ha] at hoff2
      rw [offOf_congr r1 hob21, hoff1, hoff2]
      omega
    · exfalso
      have halen1 : (st1.holdBufferOp
          (st1.activeBufferId (getTypeId b.length))).activeBuffers.length =
          st1.maxSmallArraySize + 1 := by
        show st1.activeBuffers.length = st1.maxSmallArraySize + 1
        exact wf_alen hwf1
      have hnew : stM2.activeBufferId b.length = newId := by
        rw [hMeq]
        exact activateBuffer_activeBufferId_self _ newId
          (by rw [halen1]; show b.length < st1.maxSmallArraySize + 1; omega)
      obtain ⟨hnflt, hnfree⟩ := findFreeBuffer_spec st1.buffers newId hFree
      have hfree' : (st1.bufAt newId).state = BufState.free := hnfree
      obtain ⟨hAlt', hAt', hAact'⟩ :=
        wf_active hwf1 a.length (by rw [hpres1.msmall]; exact hle)
      have hsame1 : st1.bufIdOf r1 = newId := by
        have e1 : st2.bufIdOf r1 = st1.bufIdOf r1 := bufIdOf_congr r1 hob21
        rw [← e1, hsame, hbid2, hnew]
      have heq : st1.activeBufferId a.length = newId := by
        rw [hact1, ← hbid1]
        exact hsame1
      rw [heq, hfree'] at hAact'
      cases hAact'

def c10R2 : Nat := (addResult c2St1 [7, 8]).1

def c10St2 : ArrayStore Nat := (addResult c2St1 [7, 8]).2

theorem c10_small_alignment_witness :
    Params.ok pW ∧ Reachable Nat pW stInit ∧
    0 < ([5, 6] : List Nat).length ∧
    ([5, 6] : List Nat).length ≤ stInit.maxSmallArraySize ∧
    ([7, 8] : List Nat).length = ([5, 6] : List Nat).length ∧
    stInit.add [5, 6] = some (c2Ref, c2St1) ∧
    c2St1.add [7, 8] = some (c10R2, c10St2) ∧
    c10St2.bufIdOf c2Ref = c10St2.bufIdOf c10R2 ∧
    c10St2.offOf c2Ref < c10St2.offOf c10R2 :=
  ⟨by decide, Relation.ReflTransGen.refl, by decide, by decide, by decide,
   by decide, by decide, by decide,
   (@c10_small_alignment Nat _ pW stInit (by decide)
     Relation.ReflTransGen.refl).2.2 [5, 6] [7, 8] c2Ref c10R2 c2St1 c10St2
     (by decide) (by decide) (by decide) (by decide) (by decide) (by decide)⟩

end VespaArrayStore
